import Mathlib

/-!
Verification of the identity and verification pipeline of this repository:
key and encoding codec (base58 / base64url / multibase), DID document
resolution, canonical request signing and verification, the replay cache
used by agent signature verification, and the atomic credit ledger.

Byte strings are modelled as lists of naturals below 256.  External
primitives (SHA-256, Ed25519, the platform base64 of Buffer) are either
abstracted as explicit function parameters or modelled from the spec,
as noted on each definition.
-/

/-! ## Generic positional-digit machinery -/

/--
Big-endian digit expansion of a natural number in base b, computed with a
structural fuel argument so it evaluates in the kernel.  An input of 0
yields the empty digit list, matching the while loops of encodeBase58 and
decodeBase58 in packages/did/src/utils.ts, which emit nothing for 0.
-/
def natToDigitsBE (b : Nat) : Nat → Nat → List Nat
  | 0, _ => []
  | fuel + 1, n => if n = 0 then [] else natToDigitsBE b fuel (n / b) ++ [n % b]

/-- Big-endian digits of n in base b (self-fueled wrapper). -/
def toDigitsBE (b n : Nat) : List Nat :=
  natToDigitsBE b n n

theorem natToDigitsBE_eq (b : Nat) (hb : 1 < b) :
    ∀ fuel n, n ≤ fuel → natToDigitsBE b fuel n = (Nat.digits b n).reverse := by
  intro fuel
  induction fuel with
  | zero =>
    intro n hn
    interval_cases n
    simp [natToDigitsBE]
  | succ fuel ih =>
    intro n hn
    by_cases h0 : n = 0
    · subst h0; simp [natToDigitsBE]
    · have hpos : 0 < n := Nat.pos_of_ne_zero h0
      have hdiv : n / b ≤ fuel := by
        have : n / b < n := Nat.div_lt_self hpos hb
        omega
      rw [natToDigitsBE, if_neg h0, ih _ hdiv, Nat.digits_def' hb hpos]
      simp

theorem toDigitsBE_eq (b n : Nat) (hb : 1 < b) :
    toDigitsBE b n = (Nat.digits b n).reverse :=
  natToDigitsBE_eq b hb n n (Nat.le_refl n)

/-- Folding digits most-significant-first is ofDigits of the reversed list. -/
theorem foldl_digits_eq_ofDigits (b : Nat) :
    ∀ (ds : List Nat) (acc : Nat),
      ds.foldl (fun n d => n * b + d) acc =
        acc * b ^ ds.length + Nat.ofDigits b ds.reverse := by
  intro ds
  induction ds with
  | nil => intro acc; simp [Nat.ofDigits]
  | cons d tl ih =>
    intro acc
    rw [List.foldl_cons, ih]
    simp only [List.reverse_cons, Nat.ofDigits_append, List.length_reverse,
      List.length_cons, Nat.ofDigits_singleton]
    ring

/-! ## Base58 codec (packages/did/src/utils.ts) -/

/-- The base58 alphabet used by the source (Bitcoin/IPFS variant). -/
def BASE58_ALPHABET : List Char :=
  ("123456789ABCDEFGHJKLMNPQRSTUVWXYZabcdefghijkmnopqrstuvwxyz").toList

/-- Index of a character in a character list; models JavaScript indexOf,
with none in place of -1. -/
def indexOfChar : List Char → Char → Option Nat
  | [], _ => none
  | d :: ds, c => if d = c then some 0 else (indexOfChar ds c).map (· + 1)

/-- Character for a base58 digit (digit assumed below 58). -/
def base58Chr (d : Nat) : Char :=
  BASE58_ALPHABET.getD d ('1')

/--
encodeBase58 from packages/did/src/utils.ts on a byte list: empty input
gives the empty string; otherwise the bytes are folded into one natural,
expanded big-endian in base 58 via the alphabet, and one leading '1' is
prepended per leading zero byte.
-/
def encodeBase58 (bytes : List Nat) : String :=
  if bytes = [] then ("")
  else
    let num := bytes.foldl (fun n byte => n * 256 + byte) 0
    let digitChars := (toDigitsBE 58 num).map base58Chr
    let leadingZeros := (bytes.takeWhile (· = 0)).length
    String.mk (List.replicate leadingZeros ('1') ++ digitChars)

/--
decodeBase58 from packages/did/src/utils.ts, on the character list of the
input string: counts leading '1' characters, folds every character through
the alphabet (an unknown character is the thrown error, carried here as
Except.error of that character), expands the accumulated natural into
big-endian base-256 bytes and prepends one zero byte per leading '1'.
-/
def base58Fold : List Char → Nat → Except Char Nat
  | [], n => .ok n
  | c :: cs, n =>
    match indexOfChar BASE58_ALPHABET c with
    | some digit => base58Fold cs (n * 58 + digit)
    | none => .error c

/-- decodeBase58 over a raw character list (the body of the source function). -/
def decodeBase58L (cs : List Char) : Except Char (List Nat) :=
  if cs = [] then .ok []
  else
    let leadingZeros := (cs.takeWhile (· = '1')).length
    match base58Fold cs 0 with
    | .error c => .error c
    | .ok num => .ok (List.replicate leadingZeros 0 ++ toDigitsBE 256 num)

/-- decodeBase58 on a string. -/
def decodeBase58 (s : String) : Except Char (List Nat) :=
  decodeBase58L s.toList

/-! Alphabet facts, all by kernel computation. -/

theorem base58_indexOf_chr : ∀ d : Fin 58,
    indexOfChar BASE58_ALPHABET (base58Chr d.val) = some d.val := by decide

theorem base58Chr_ne_one : ∀ d : Fin 58, d.val ≠ 0 → base58Chr d.val ≠ '1' := by
  decide

theorem base58_indexOf_one : indexOfChar BASE58_ALPHABET ('1') = some 0 := by
  decide

/-! Round-trip lemmas for base58. -/

theorem ofDigits_replicate_zero (b : Nat) : ∀ z : Nat,
    Nat.ofDigits b (List.replicate z 0) = 0 := by
  intro z
  induction z with
  | zero => simp [Nat.ofDigits]
  | succ z ih => simp [List.replicate_succ, Nat.ofDigits_cons, ih]

theorem ofDigits_append_replicate_zero (b z : Nat) (l : List Nat) :
    Nat.ofDigits b (l ++ List.replicate z 0) = Nat.ofDigits b l := by
  rw [Nat.ofDigits_append, ofDigits_replicate_zero]
  simp

theorem takeWhile_zero_spec (bytes : List Nat) :
    bytes.takeWhile (· = 0) =
      List.replicate (bytes.takeWhile (· = 0)).length 0 := by
  rw [List.eq_replicate_iff]
  refine ⟨rfl, ?_⟩
  intro b hb
  have := List.mem_takeWhile_imp hb
  simpa using this

theorem base58Fold_map (ds : List Nat) (h : ∀ d ∈ ds, d < 58) :
    ∀ acc, base58Fold (ds.map base58Chr) acc =
      .ok (ds.foldl (fun n d => n * 58 + d) acc) := by
  induction ds with
  | nil => intro acc; rfl
  | cons d tl ih =>
    intro acc
    have hd : d < 58 := h d (List.mem_cons_self _ _)
    have hidx := base58_indexOf_chr ⟨d, hd⟩
    simp only [List.map_cons, base58Fold, hidx]
    exact ih (fun x hx => h x (List.mem_cons_of_mem _ hx)) _

theorem base58Fold_replicate_one (cs : List Char) : ∀ z : Nat,
    base58Fold (List.replicate z ('1') ++ cs) 0 = base58Fold cs 0 := by
  intro z
  induction z with
  | zero => rfl
  | succ z ih =>
    simp only [List.replicate_succ, List.cons_append, base58Fold,
      base58_indexOf_one]
    simpa using ih

theorem takeWhile_one_replicate_append (z : Nat) (cs : List Char)
    (h : cs = [] ∨ ∃ c cs', cs = c :: cs' ∧ c ≠ '1') :
    (List.replicate z ('1') ++ cs).takeWhile (· = '1') =
      List.replicate z ('1') := by
  induction z with
  | zero =>
    simp only [List.replicate_zero, List.nil_append]
    rcases h with rfl | ⟨c, cs', rfl, hc⟩
    · rfl
    · simp [List.takeWhile_cons, hc]
  | succ z ih =>
    simp only [List.replicate_succ, List.cons_append, List.takeWhile_cons]
    simpa using ih

theorem takeWhile_replicate_append {α : Type} (p : α → Bool) (a : α)
    (hpa : p a = true) (z : Nat) (cs : List α)
    (h : cs = [] ∨ ∃ c cs', cs = c :: cs' ∧ p c = false) :
    (List.replicate z a ++ cs).takeWhile p = List.replicate z a := by
  induction z with
  | zero =>
    simp only [List.replicate_zero, List.nil_append]
    rcases h with rfl | ⟨c, cs', rfl, hc⟩
    · rfl
    · simp [List.takeWhile_cons, hc]
  | succ z ih =>
    simp only [List.replicate_succ, List.cons_append, List.takeWhile_cons, hpa]
    simpa using ih

theorem dropWhile_head_not {α : Type} (p : α → Bool) :
    ∀ (l : List α) (c : α) (rest : List α),
      l.dropWhile p = c :: rest → p c = false := by
  intro l
  induction l with
  | nil => intro c rest hc; simp [List.dropWhile] at hc
  | cons x tl ih =>
    intro c rest hc
    rw [List.dropWhile_cons] at hc
    by_cases hx : p x = true
    · rw [if_pos hx] at hc
      exact ih c rest hc
    · rw [if_neg hx] at hc
      cases hc
      simpa using hx

/-- Every byte list splits as leading zero bytes followed by a list that is
empty or has a nonzero head; this is the takeWhile / dropWhile split used
by encodeBase58. -/
theorem bytes_decomp (bytes : List Nat) :
    ∃ z core, bytes = List.replicate z 0 ++ core ∧
      bytes.takeWhile (· = 0) = List.replicate z 0 ∧
      (core = [] ∨ ∃ c rest, core = c :: rest ∧ c ≠ 0) := by
  refine ⟨(bytes.takeWhile (· = 0)).length, bytes.dropWhile (· = 0), ?_, ?_, ?_⟩
  · conv_lhs => rw [← List.takeWhile_append_dropWhile (p := (· = 0)) (l := bytes)]
    rw [← takeWhile_zero_spec]
  · exact takeWhile_zero_spec bytes
  · rcases hd : bytes.dropWhile (· = 0) with _ | ⟨c, rest⟩
    · exact Or.inl hd
    · refine Or.inr ⟨c, rest, hd, ?_⟩
      have := dropWhile_head_not (· = 0) bytes c rest hd
      simpa using this

/-- General base58 round trip: decoding the encoding of any byte list gives
back exactly that byte list, leading zero bytes included. -/
theorem decodeBase58L_encodeBase58_toList (bytes : List Nat)
    (h : ∀ x ∈ bytes, x < 256) :
    decodeBase58L (encodeBase58 bytes).toList = .ok bytes := by
  by_cases hb : bytes = []
  · subst hb; rfl
  · obtain ⟨z, core, hsplit, htake, hhead⟩ := bytes_decomp bytes
    have hcore_mem : ∀ x ∈ core, x < 256 := by
      intro x hx
      exact h x (by rw [hsplit]; exact List.mem_append_right _ hx)
    have hnum : bytes.foldl (fun n byte => n * 256 + byte) 0 =
        Nat.ofDigits 256 core.reverse := by
      rw [foldl_digits_eq_ofDigits, hsplit, List.reverse_append,
        List.reverse_replicate, ofDigits_append_replicate_zero]
      simp
    rw [encodeBase58, if_neg hb]
    simp only [hnum, htake, List.length_replicate]
    rcases hhead with hcore | ⟨c, rest, hcore, hc0⟩
    · -- all bytes are zero bytes
      subst hcore
      have hz1 : z ≠ 0 := by
        intro hz0
        subst hz0
        simp at hsplit
        exact hb hsplit
      have hnum0 : Nat.ofDigits 256 ([] : List Nat).reverse = 0 := by
        simp [Nat.ofDigits]
      rw [hnum0]
      show decodeBase58L (List.replicate z ('1') ++
        (toDigitsBE 58 0).map base58Chr) = _
      have hdg : toDigitsBE 58 0 = [] := rfl
      rw [hdg, List.map_nil, List.append_nil, decodeBase58L]
      have hne : List.replicate z ('1') ≠ ([] : List Char) := by
        simpa [List.replicate_eq_nil_iff] using hz1
      rw [if_neg hne]
      have htw := takeWhile_replicate_append (· = '1') ('1') (by decide) z []
        (Or.inl rfl)
      rw [List.append_nil] at htw
      simp only [htw, List.length_replicate]
      have hfold : base58Fold (List.replicate z ('1')) 0 = .ok 0 := by
        have := base58Fold_replicate_one [] z
        simpa using this
      rw [hfold]
      show Except.ok (List.replicate z 0 ++ toDigitsBE 256 0) = Except.ok bytes
      have hdg2 : toDigitsBE 256 0 = [] := rfl
      rw [hdg2, List.append_nil, hsplit, List.append_nil]
    · -- the first non-zero byte exists
      subst hcore
      have hnumne : Nat.ofDigits 256 (c :: rest).reverse ≠ 0 := by
        simp only [List.reverse_cons]
        rw [Nat.ofDigits_append, Nat.ofDigits_singleton]
        intro hcontra
        have hp : 0 < (256 : ℕ) ^ rest.reverse.length :=
          pow_pos (by norm_num) _
        have hcz : (256 : ℕ) ^ rest.reverse.length * c = 0 := by omega
        rcases Nat.mul_eq_zero.mp hcz with h3 | h3
        · omega
        · exact hc0 h3
      set num := Nat.ofDigits 256 (c :: rest).reverse with hnumdef
      have hdigits_ne : Nat.digits 58 num ≠ [] :=
        Nat.digits_ne_nil_iff_ne_zero.mpr hnumne
      rcases hrev : (Nat.digits 58 num).reverse with _ | ⟨d0, ds'⟩
      · exact absurd (by simpa using congrArg List.reverse hrev) hdigits_ne
      have hd0mem : d0 ∈ Nat.digits 58 num := by
        rw [← List.mem_reverse, hrev]
        exact List.mem_cons_self _ _
      have hd058 : d0 < 58 := Nat.digits_lt_base (by norm_num) hd0mem
      have hlist : Nat.digits 58 num = ds'.reverse ++ [d0] := by
        have := congrArg List.reverse hrev
        simpa using this
      have hd0ne : d0 ≠ 0 := by
        have hglast := Nat.getLast_digit_ne_zero 58 hnumne
        have h1 : (Nat.digits 58 num).getLast? = some d0 := by
          rw [hlist]
          simp
        have h2 := List.getLast?_eq_getLast (Nat.digits 58 num)
          (Nat.digits_ne_nil_iff_ne_zero.mpr hnumne)
        rw [h1] at h2
        have := Option.some.inj h2
        rw [this]
        exact hglast
      have hchar_ne : base58Chr d0 ≠ '1' := base58Chr_ne_one ⟨d0, hd058⟩ hd0ne
      have hBE : toDigitsBE 58 num = d0 :: ds' := by
        rw [toDigitsBE_eq _ _ (by norm_num), hrev]
      rw [hBE]
      show decodeBase58L (List.replicate z ('1') ++
        (d0 :: ds').map base58Chr) = Except.ok bytes
      rw [decodeBase58L]
      have hne : List.replicate z ('1') ++
          (d0 :: ds').map base58Chr ≠ ([] : List Char) := by
        simp
      rw [if_neg hne]
      have htw := takeWhile_replicate_append (· = '1') ('1') (by decide) z
        ((d0 :: ds').map base58Chr)
        (Or.inr ⟨base58Chr d0, ds'.map base58Chr, by simp, by simpa using hchar_ne⟩)
      simp only [htw, List.length_replicate]
      have hfold : base58Fold (List.replicate z ('1') ++
          (d0 :: ds').map base58Chr) 0 = .ok num := by
        rw [base58Fold_replicate_one]
        have hall : ∀ d ∈ d0 :: ds', d < 58 := by
          intro d hd
          have hmem : d ∈ Nat.digits 58 num := by
            rw [← List.mem_reverse, hrev]
            exact hd
          exact Nat.digits_lt_base (by norm_num) hmem
        rw [base58Fold_map _ hall, foldl_digits_eq_ofDigits]
        have : (d0 :: ds').reverse = Nat.digits 58 num := by
          rw [← hrev, List.reverse_reverse]
        rw [this, Nat.ofDigits_digits]
        simp
      rw [hfold]
      show Except.ok (List.replicate z 0 ++ toDigitsBE 256 num) = Except.ok bytes
      have hbytes : toDigitsBE 256 num = c :: rest := by
        rw [toDigitsBE_eq _ _ (by norm_num), hnumdef]
        rw [Nat.digits_ofDigits 256 (by norm_num) (c :: rest).reverse
          (by intro l hl; exact hcore_mem l (List.mem_reverse.mp hl))
          (by
            intro hne'
            simp only [List.reverse_cons]
            rw [List.getLast_append_singleton]
            exact hc0)]
        simp
      rw [hbytes, hsplit]

/-- Base58 round trip on strings. -/
theorem decodeBase58_encodeBase58 (bytes : List Nat)
    (h : ∀ x ∈ bytes, x < 256) :
    decodeBase58 (encodeBase58 bytes) = .ok bytes :=
  decodeBase58L_encodeBase58_toList bytes h

/-! ## Multibase key encoding (packages/did/src/utils.ts) -/

/-- Typed rendering of the errors thrown by multibaseToPublicKey and the
base58 decoder: invalidMultibaseFormat is the thrown message starting
with the words Invalid multibase format (the spec calls this error
InvalidMultibasePrefix), invalidBase58 carries the offending character of
the thrown message Invalid base58 character, and invalidCodec is the
thrown message Invalid Ed25519 multicodec prefix (the spec calls it
InvalidKeyCodec). -/
inductive KeyError
  | invalidMultibaseFormat
  | invalidBase58 (c : Char)
  | invalidCodec
  deriving DecidableEq

/-- publicKeyToMultibase from packages/did/src/utils.ts: prefix the key
bytes with the Ed25519 multicodec tag 0xed 0x01, base58-encode, and
prepend the multibase character z. -/
def publicKeyToMultibase (publicKey : List Nat) : String :=
  ("z") ++ encodeBase58 (0xed :: 0x01 :: publicKey)

/-- Body of multibaseToPublicKey, on the character list of the input:
the startsWith z guard, the base58 decode of the rest, the length and
0xed 0x01 tag check, and the slice from index two. -/
def multibaseToPublicKeyL (cs : List Char) : Except KeyError (List Nat) :=
  match cs with
  | c :: rest =>
    if c = 'z' then
      match decodeBase58L rest with
      | .error ch => .error (.invalidBase58 ch)
      | .ok decoded =>
        if decoded.length < 34 ∨ decoded.getD 0 0 ≠ 0xed ∨
            decoded.getD 1 0 ≠ 0x01
        then .error .invalidCodec
        else .ok (decoded.drop 2)
    else .error .invalidMultibaseFormat
  | [] => .error .invalidMultibaseFormat

/-- multibaseToPublicKey from packages/did/src/utils.ts. -/
def multibaseToPublicKey (multibase : String) : Except KeyError (List Nat) :=
  multibaseToPublicKeyL multibase.toList

theorem toList_z_append (t : String) :
    (("z") ++ t).toList = 'z' :: t.toList := by
  simp [String.toList, String.data_append]

/-- Multibase round trip for 32-byte public keys. -/
theorem multibase_roundTrip (k : List Nat) (hlen : k.length = 32)
    (h : ∀ x ∈ k, x < 256) :
    multibaseToPublicKey (publicKeyToMultibase k) = .ok k := by
  have hpref : ∀ x ∈ (0xed :: 0x01 :: k), x < 256 := by
    intro x hx
    rcases List.mem_cons.mp hx with rfl | hx
    · norm_num
    · rcases List.mem_cons.mp hx with rfl | hx
      · norm_num
      · exact h x hx
  have hdec := decodeBase58L_encodeBase58_toList (0xed :: 0x01 :: k) hpref
  rw [multibaseToPublicKey, publicKeyToMultibase, toList_z_append]
  rw [multibaseToPublicKeyL, if_pos rfl, hdec]
  show (if (0xed :: 0x01 :: k).length < 34 ∨
      (0xed :: 0x01 :: k).getD 0 0 ≠ 0xed ∨
      (0xed :: 0x01 :: k).getD 1 0 ≠ 0x01
    then Except.error KeyError.invalidCodec
    else Except.ok ((0xed :: 0x01 :: k).drop 2)) = Except.ok k
  have hcond : ¬((0xed :: 0x01 :: k).length < 34 ∨
      (0xed :: 0x01 :: k).getD 0 0 ≠ 0xed ∨
      (0xed :: 0x01 :: k).getD 1 0 ≠ 0x01) := by
    simp [hlen, List.getD]
  rw [if_neg hcond]
  rfl

/-! ## Base64 and base64url codec

The source encodes with the platform primitive (Buffer or btoa) and then
applies the url-safe substitutions itself; the primitive is standard
RFC 4648 base64 and is modelled here byte for byte.  base64urlEncode and
base64urlDecode appear verbatim twice in the repository, in
packages/crypto/src/keys.ts and in the request module (unnamed part 003);
both copies are the functions embedded here.
-/

def base64Alphabet : List Char :=
  ("ABCDEFGHIJKLMNOPQRSTUVWXYZabcdefghijklmnopqrstuvwxyz0123456789+/").toList

/-- Character of a base64 sextet (sextet assumed below 64). -/
def b64Chr (n : Nat) : Char :=
  base64Alphabet.getD n ('A')

/-- Sextet of a base64 character; an unknown character contributes 0,
matching the leniency of the platform decoder. -/
def b64Val (c : Char) : Nat :=
  (indexOfChar base64Alphabet c).getD 0

/-- RFC 4648 base64 encoding of a byte list, with padding characters. -/
def b64EncodeCore : List Nat → List Char
  | [] => []
  | [a] => [b64Chr (a / 4), b64Chr (a % 4 * 16), '=', '=']
  | [a, b] => [b64Chr (a / 4), b64Chr (a % 4 * 16 + b / 16),
      b64Chr (b % 16 * 4), '=']
  | a :: b :: c :: rest =>
    b64Chr (a / 4) :: b64Chr (a % 4 * 16 + b / 16) ::
      b64Chr (b % 16 * 4 + c / 64) :: b64Chr (c % 64) :: b64EncodeCore rest

/-- RFC 4648 base64 decoding of a padded character list; a padding
character ends the decode, an incomplete trailing group is dropped, both
matching the leniency of the platform decoder on the inputs the encoder
can produce. -/
def b64DecodeCore : List Char → List Nat
  | a :: b :: c :: d :: rest =>
    if c = '=' then [b64Val a * 4 + b64Val b / 16]
    else if d = '=' then
      [b64Val a * 4 + b64Val b / 16, b64Val b % 16 * 16 + b64Val c / 4]
    else
      (b64Val a * 4 + b64Val b / 16) :: (b64Val b % 16 * 16 + b64Val c / 4) ::
        (b64Val c % 4 * 64 + b64Val d) :: b64DecodeCore rest
  | _ => []

/-- The url-safe substitution applied after encoding:
plus becomes minus and slash becomes underscore. -/
def toUrlChar : Char → Char
  | '+' => '-'
  | '/' => '_'
  | c => c

/-- The inverse substitution applied before decoding:
minus becomes plus and underscore becomes slash. -/
def fromUrlChar : Char → Char
  | '-' => '+'
  | '_' => '/'
  | c => c

/-- Character list of a base64url encoding: platform base64, url-safe
substitutions, and all padding characters removed. -/
def urlChars (data : List Nat) : List Char :=
  ((b64EncodeCore data).map toUrlChar).filter (· ≠ '=')

/-- base64urlEncode from the source: platform base64 with plus and slash
substituted and every padding character removed. -/
def base64urlEncode (data : List Nat) : String :=
  String.mk (urlChars data)

/-- Padding restoration of base64urlDecode: two characters of padding for
a remainder of two, one for a remainder of three. -/
def b64Pad (cs : List Char) : List Char :=
  if cs.length % 4 = 2 then cs ++ ['=', '=']
  else if cs.length % 4 = 3 then cs ++ ['=']
  else cs

/-- base64urlDecode from the source: url-safe substitutions undone,
padding restored from the length modulo four, then the platform base64
decode. -/
def base64urlDecode (encoded : String) : List Nat :=
  b64DecodeCore (b64Pad (encoded.toList.map fromUrlChar))

/-! Alphabet facts for base64, by kernel computation. -/

theorem b64Val_fromUrl_toUrl_chr : ∀ v : Fin 64,
    b64Val (fromUrlChar (toUrlChar (b64Chr v.val))) = v.val := by decide

theorem toUrl_chr_ne_eq : ∀ v : Fin 64, toUrlChar (b64Chr v.val) ≠ '=' := by
  decide

theorem fromUrl_toUrl_chr : ∀ v : Fin 64,
    fromUrlChar (toUrlChar (b64Chr v.val)) = b64Chr v.val := by decide

theorem b64Chr_ne_eq : ∀ v : Fin 64, b64Chr v.val ≠ '=' := by decide

theorem b64Val_chr : ∀ v : Fin 64, b64Val (b64Chr v.val) = v.val := by decide

theorem toUrlChar_pad : toUrlChar ('=') = '=' := rfl

theorem b64Pad_cons4 (k1 k2 k3 k4 : Char) (X : List Char) :
    b64Pad (k1 :: k2 :: k3 :: k4 :: X) = k1 :: k2 :: k3 :: k4 :: b64Pad X := by
  simp only [b64Pad, List.length_cons]
  have h2 : (X.length + 1 + 1 + 1 + 1) % 4 = 2 ↔ X.length % 4 = 2 := by omega
  have h3 : (X.length + 1 + 1 + 1 + 1) % 4 = 3 ↔ X.length % 4 = 3 := by omega
  split_ifs with ha hb hc hd he hf <;> simp_all

theorem b64url_roundTrip_aux :
    ∀ (n : Nat) (data : List Nat), data.length ≤ n → (∀ x ∈ data, x < 256) →
      b64DecodeCore (b64Pad ((urlChars data).map fromUrlChar)) = data := by
  intro n
  induction n with
  | zero =>
    intro data hlen _
    have : data = [] := List.length_eq_zero.mp (Nat.le_zero.mp hlen)
    subst this
    rfl
  | succ n ih =>
    intro data hlen hmem
    rcases data with _ | ⟨a, _ | ⟨b, _ | ⟨c, rest⟩⟩⟩
    · rfl
    · -- one trailing byte
      have ha : a < 256 := hmem a (by simp)
      have hs1 : a / 4 < 64 := by omega
      have hs2 : a % 4 * 16 < 64 := by omega
      have hu1 := fromUrl_toUrl_chr ⟨a / 4, hs1⟩
      have hu2 := fromUrl_toUrl_chr ⟨a % 4 * 16, hs2⟩
      have hn1 := toUrl_chr_ne_eq ⟨a / 4, hs1⟩
      have hn2 := toUrl_chr_ne_eq ⟨a % 4 * 16, hs2⟩
      have hv1 := b64Val_chr ⟨a / 4, hs1⟩
      have hv2 := b64Val_chr ⟨a % 4 * 16, hs2⟩
      have hchunk : urlChars [a] =
          [toUrlChar (b64Chr (a / 4)), toUrlChar (b64Chr (a % 4 * 16))] := by
        simp only [urlChars, b64EncodeCore, List.map_cons, List.map_nil,
          toUrlChar_pad, List.filter_cons, List.filter_nil]
        simp [hn1, hn2]
      rw [hchunk]
      simp only [List.map_cons, List.map_nil, hu1, hu2]
      have hpad : b64Pad [b64Chr (a / 4), b64Chr (a % 4 * 16)] =
          [b64Chr (a / 4), b64Chr (a % 4 * 16), '=', '='] := by
        simp [b64Pad]
      rw [hpad, b64DecodeCore, if_pos rfl]
      simp only [hv1, hv2]
      have e1 : a / 4 * 4 + a % 4 * 16 / 16 = a := by omega
      rw [e1]
    · -- two trailing bytes
      have ha : a < 256 := hmem a (by simp)
      have hb : b < 256 := hmem b (by simp)
      have hs1 : a / 4 < 64 := by omega
      have hs2 : a % 4 * 16 + b / 16 < 64 := by omega
      have hs3 : b % 16 * 4 < 64 := by omega
      have hu1 := fromUrl_toUrl_chr ⟨a / 4, hs1⟩
      have hu2 := fromUrl_toUrl_chr ⟨a % 4 * 16 + b / 16, hs2⟩
      have hu3 := fromUrl_toUrl_chr ⟨b % 16 * 4, hs3⟩
      have hn1 := toUrl_chr_ne_eq ⟨a / 4, hs1⟩
      have hn2 := toUrl_chr_ne_eq ⟨a % 4 * 16 + b / 16, hs2⟩
      have hn3 := toUrl_chr_ne_eq ⟨b % 16 * 4, hs3⟩
      have hv1 := b64Val_chr ⟨a / 4, hs1⟩
      have hv2 := b64Val_chr ⟨a % 4 * 16 + b / 16, hs2⟩
      have hv3 := b64Val_chr ⟨b % 16 * 4, hs3⟩
      have hb3 := b64Chr_ne_eq ⟨b % 16 * 4, hs3⟩
      have hchunk : urlChars [a, b] =
          [toUrlChar (b64Chr (a / 4)),
           toUrlChar (b64Chr (a % 4 * 16 + b / 16)),
           toUrlChar (b64Chr (b % 16 * 4))] := by
        simp only [urlChars, b64EncodeCore, List.map_cons, List.map_nil,
          toUrlChar_pad, List.filter_cons, List.filter_nil]
        simp [hn1, hn2, hn3]
      rw [hchunk]
      simp only [List.map_cons, List.map_nil, hu1, hu2, hu3]
      have hpad : b64Pad [b64Chr (a / 4), b64Chr (a % 4 * 16 + b / 16),
          b64Chr (b % 16 * 4)] =
          [b64Chr (a / 4), b64Chr (a % 4 * 16 + b / 16),
           b64Chr (b % 16 * 4), '='] := by
        simp [b64Pad]
      rw [hpad, b64DecodeCore, if_neg hb3, if_pos rfl]
      simp only [hv1, hv2, hv3]
      have e1 : a / 4 * 4 + (a % 4 * 16 + b / 16) / 16 = a := by omega
      have e2 : (a % 4 * 16 + b / 16) % 16 * 16 + b % 16 * 4 / 4 = b := by omega
      rw [e1, e2]
    · -- a full group of three bytes and the remainder
      have ha : a < 256 := hmem a (by simp)
      have hb : b < 256 := hmem b (by simp)
      have hc : c < 256 := hmem c (by simp)
      have hrest : ∀ x ∈ rest, x < 256 := by
        intro x hx
        exact hmem x (by simp [hx])
      have hrlen : rest.length ≤ n := by
        simp only [List.length_cons] at hlen
        omega
      have htail := ih rest hrlen hrest
      have hs1 : a / 4 < 64 := by omega
      have hs2 : a % 4 * 16 + b / 16 < 64 := by omega
      have hs3 : b % 16 * 4 + c / 64 < 64 := by omega
      have hs4 : c % 64 < 64 := by omega
      have hu1 := fromUrl_toUrl_chr ⟨a / 4, hs1⟩
      have hu2 := fromUrl_toUrl_chr ⟨a % 4 * 16 + b / 16, hs2⟩
      have hu3 := fromUrl_toUrl_chr ⟨b % 16 * 4 + c / 64, hs3⟩
      have hu4 := fromUrl_toUrl_chr ⟨c % 64, hs4⟩
      have hn1 := toUrl_chr_ne_eq ⟨a / 4, hs1⟩
      have hn2 := toUrl_chr_ne_eq ⟨a % 4 * 16 + b / 16, hs2⟩
      have hn3 := toUrl_chr_ne_eq ⟨b % 16 * 4 + c / 64, hs3⟩
      have hn4 := toUrl_chr_ne_eq ⟨c % 64, hs4⟩
      have hv1 := b64Val_chr ⟨a / 4, hs1⟩
      have hv2 := b64Val_chr ⟨a % 4 * 16 + b / 16, hs2⟩
      have hv3 := b64Val_chr ⟨b % 16 * 4 + c / 64, hs3⟩
      have hv4 := b64Val_chr ⟨c % 64, hs4⟩
      have hb3 := b64Chr_ne_eq ⟨b % 16 * 4 + c / 64, hs3⟩
      have hb4 := b64Chr_ne_eq ⟨c % 64, hs4⟩
      have hchunk : urlChars (a :: b :: c :: rest) =
          toUrlChar (b64Chr (a / 4)) ::
          toUrlChar (b64Chr (a % 4 * 16 + b / 16)) ::
          toUrlChar (b64Chr (b % 16 * 4 + c / 64)) ::
          toUrlChar (b64Chr (c % 64)) :: urlChars rest := by
        simp only [urlChars, b64EncodeCore, List.map_cons, List.filter_cons]
        simp [hn1, hn2, hn3, hn4]
      rw [hchunk]
      simp only [List.map_cons, hu1, hu2, hu3, hu4]
      rw [b64Pad_cons4]
      rw [b64DecodeCore]
      rw [if_neg hb3, if_neg hb4]
      rw [htail]
      simp only [hv1, hv2, hv3, hv4]
      have e1 : a / 4 * 4 + (a % 4 * 16 + b / 16) / 16 = a := by omega
      have e2 : (a % 4 * 16 + b / 16) % 16 * 16 + (b % 16 * 4 + c / 64) / 4 = b := by
        omega
      have e3 : (b % 16 * 4 + c / 64) % 4 * 64 + c % 64 = c := by omega
      rw [e1, e2, e3]

/-- base64url round trip: decode of encode is the identity on byte lists. -/
theorem base64urlDecode_encode (data : List Nat) (h : ∀ x ∈ data, x < 256) :
    base64urlDecode (base64urlEncode data) = data := by
  have := b64url_roundTrip_aux data.length data (Nat.le_refl _) h
  rw [base64urlDecode, base64urlEncode]
  have htl : (String.mk (urlChars data)).toList = urlChars data := rfl
  rw [htl]
  exact this

/-! ## UTF-8, JavaScript number parsing, and header utilities -/

/-- UTF-8 encoding of one character (RFC 3629), modelling the external
TextEncoder primitive used throughout the request module. -/
def utf8Char (c : Char) : List Nat :=
  let n := c.toNat
  if n < 0x80 then [n]
  else if n < 0x800 then [0xC0 + n / 64, 0x80 + n % 64]
  else if n < 0x10000 then
    [0xE0 + n / 4096, 0x80 + n / 64 % 64, 0x80 + n % 64]
  else [0xF0 + n / 0x40000, 0x80 + n / 4096 % 64, 0x80 + n / 64 % 64,
    0x80 + n % 64]

/-- UTF-8 encoding of a string as a byte list (TextEncoder.encode). -/
def utf8Encode (s : String) : List Nat :=
  (s.toList.map utf8Char).flatten

theorem char_toNat_lt (c : Char) : c.toNat < 1114112 := by
  have h := c.valid
  simp only [UInt32.isValidChar, Nat.isValidChar] at h
  have : c.toNat = c.val.toNat := rfl
  omega

theorem utf8Char_lt (c : Char) : ∀ x ∈ utf8Char c, x < 256 := by
  intro x hx
  have hc := char_toNat_lt c
  rw [utf8Char] at hx
  split_ifs at hx <;> simp only [List.mem_cons, List.mem_singleton] at hx <;>
    rcases hx with rfl | hx <;> first | omega | (try rcases hx with rfl | hx) <;>
    first | omega | (try rcases hx with rfl | hx) <;>
    first | omega | (try rcases hx with rfl | hx) <;>
    first | omega | simp_all

theorem utf8Encode_lt (s : String) : ∀ x ∈ utf8Encode s, x < 256 := by
  intro x hx
  rw [utf8Encode] at hx
  rcases List.mem_flatten.mp hx with ⟨l, hl, hxl⟩
  rcases List.mem_map.mp hl with ⟨c, _, rfl⟩
  exact utf8Char_lt c x hxl

/-- Number.parseInt(s, 10): leading whitespace skipped, an optional sign,
then the longest prefix of decimal digits; none when that prefix is empty
(parseInt returns NaN there).  The numeric value is modelled exactly; the
double-precision rounding of very long digit strings is out of scope. -/
def parseIntJS (s : String) : Option Int :=
  let cs := s.toList.dropWhile (fun c => c.isWhitespace)
  let signRest : Int × List Char :=
    match cs with
    | c :: r => if c = '-' then (-1, r) else if c = '+' then (1, r) else (1, c :: r)
    | [] => (1, [])
  let digits := signRest.2.takeWhile (fun c => c.isDigit)
  if digits.isEmpty then none
  else
    some (signRest.1 *
      (digits.foldl (fun acc c => acc * 10 + (c.toNat - 48)) 0 : Nat))

/-- ASCII lower-casing of one character (String.prototype.toLowerCase on
the ASCII header names used by the protocol). -/
def lowerChar (c : Char) : Char :=
  if 'A' ≤ c ∧ c ≤ 'Z' then Char.ofNat (c.toNat + 32) else c

/-- ASCII lower-casing of a string. -/
def lowerStr (s : String) : String :=
  String.mk (s.toList.map lowerChar)

/-- ASCII upper-casing of one character (String.prototype.toUpperCase on
the ASCII method names used by the protocol). -/
def upperChar (c : Char) : Char :=
  if 'a' ≤ c ∧ c ≤ 'z' then Char.ofNat (c.toNat - 32) else c

/-- ASCII upper-casing of a string. -/
def upperStr (s : String) : String :=
  String.mk (s.toList.map upperChar)

/-- getHeader from the request module: scan the header entries in order
and return the value of the first whose name matches case-insensitively. -/
def getHeader (headers : List (String × String)) (name : String) :
    Option String :=
  (headers.find? (fun kv => lowerStr kv.1 == lowerStr name)).map (·.2)

/-- JavaScript truthiness of an optional string: none and the empty
string are falsy; models the bang checks on header lookups. -/
def jsTruthy : Option String → Option String
  | none => none
  | some s => if s = "" then none else some s

/-! Decimal printing parses back: Number.parseInt inverts toString. -/

/-- Decimal character list of a natural: one zero character for zero,
otherwise the base-10 digits most significant first. -/
def decimalChars (n : Nat) : List Char :=
  if n = 0 then ['0'] else (Nat.digits 10 n).reverse.map Nat.digitChar

theorem toDigitsCore_eq_decimalChars :
    ∀ (fuel n : Nat) (ds : List Char), n < fuel →
      Nat.toDigitsCore 10 fuel n ds = decimalChars n ++ ds := by
  intro fuel
  induction fuel with
  | zero => intro n ds hn; omega
  | succ fuel ih =>
    intro n ds hn
    simp only [Nat.toDigitsCore]
    by_cases h0 : n / 10 = 0
    · rw [if_pos h0]
      by_cases hz : n = 0
      · subst hz
        simp only [decimalChars, if_pos rfl]
        rfl
      · have hn10 : n < 10 := by omega
        rw [decimalChars, if_neg hz,
          Nat.digits_def' (by norm_num : (1:ℕ) < 10) (Nat.pos_of_ne_zero hz),
          h0]
        simp
    · rw [if_neg h0]
      have hlt : n / 10 < fuel := by omega
      rw [ih _ _ hlt]
      have hz : n ≠ 0 := by omega
      conv_rhs => rw [decimalChars, if_neg hz,
        Nat.digits_def' (by norm_num : (1:ℕ) < 10) (Nat.pos_of_ne_zero hz)]
      rw [decimalChars, if_neg h0]
      simp

theorem natRepr_eq (n : Nat) : Nat.repr n = String.mk (decimalChars n) := by
  rw [Nat.repr, Nat.toDigits,
    toDigitsCore_eq_decimalChars (n + 1) n [] (Nat.lt_succ_self n)]
  simp [List.asString]

theorem decimalChars_digits : ∀ n : Nat, ∀ c ∈ decimalChars n, c.isDigit := by
  intro n c hc
  rw [decimalChars] at hc
  split_ifs at hc with h0
  · simp only [List.mem_singleton] at hc
    subst hc; decide
  · rcases List.mem_map.mp hc with ⟨d, hd, rfl⟩
    have hd10 : d < 10 := Nat.digits_lt_base (by norm_num) (List.mem_reverse.mp hd)
    have : ∀ v : Fin 10, (Nat.digitChar v.val).isDigit := by decide
    exact this ⟨d, hd10⟩

theorem digitChar_facts : ∀ v : Fin 10,
    (Nat.digitChar v.val).isWhitespace = false ∧
    Nat.digitChar v.val ≠ '-' ∧ Nat.digitChar v.val ≠ '+' ∧
    (Nat.digitChar v.val).toNat - 48 = v.val := by decide

theorem isDigit_not_sign (c : Char) (h : c.isDigit) :
    c.isWhitespace = false ∧ c ≠ '-' ∧ c ≠ '+' := by
  have hd : 48 ≤ c.toNat ∧ c.toNat ≤ 57 := by
    simp only [Char.isDigit, Char.le_def, decide_eq_true_eq,
      Bool.and_eq_true] at h
    exact h
  refine ⟨?_, ?_, ?_⟩
  · simp only [Char.isWhitespace, Bool.or_eq_false_iff,
      decide_eq_false_iff_not]
    refine ⟨⟨⟨?_, ?_⟩, ?_⟩, ?_⟩ <;> (intro hcon; subst hcon; simp_all)
  · intro hcon; subst hcon; simp_all
  · intro hcon; subst hcon; simp_all

theorem parse_fold_map_digitChar :
    ∀ (ds : List Nat), (∀ d ∈ ds, d < 10) → ∀ acc : Nat,
      (ds.map Nat.digitChar).foldl (fun acc c => acc * 10 + (c.toNat - 48)) acc
        = ds.foldl (fun acc d => acc * 10 + d) acc := by
  intro ds
  induction ds with
  | nil => intro _ acc; rfl
  | cons d tl ih =>
    intro h acc
    have hd : d < 10 := h d (List.mem_cons_self _ _)
    have hfact := (digitChar_facts ⟨d, hd⟩).2.2.2
    simp only [List.map_cons, List.foldl_cons, hfact]
    exact ih (fun x hx => h x (List.mem_cons_of_mem _ hx)) _

theorem parse_decimalChars (n : Nat) :
    (decimalChars n).foldl (fun acc c => acc * 10 + (c.toNat - 48)) 0 = n := by
  rw [decimalChars]
  split_ifs with h0
  · subst h0; decide
  · have hall : ∀ d ∈ (Nat.digits 10 n).reverse, d < 10 := by
      intro d hd
      exact Nat.digits_lt_base (by norm_num) (List.mem_reverse.mp hd)
    rw [parse_fold_map_digitChar _ hall, foldl_digits_eq_ofDigits]
    simp [Nat.ofDigits_digits]

theorem decimalChars_ne_nil (n : Nat) : decimalChars n ≠ [] := by
  rw [decimalChars]
  split_ifs with h0
  · simp
  · simp only [ne_eq, List.map_eq_nil_iff, List.reverse_eq_nil_iff]
    exact Nat.digits_ne_nil_iff_ne_zero.mpr h0

theorem takeWhile_isDigit_decimalChars (n : Nat) :
    (decimalChars n).takeWhile (fun c => c.isDigit) = decimalChars n := by
  rw [List.takeWhile_eq_self_iff]
  intro c hc
  exact decimalChars_digits n c hc

/-- parseIntJS inverts Nat.repr. -/
theorem parseIntJS_natRepr (n : Nat) : parseIntJS (Nat.repr n) = some n := by
  rw [natRepr_eq, parseIntJS]
  have htl : (String.mk (decimalChars n)).toList = decimalChars n := rfl
  rw [htl]
  rcases hdc : decimalChars n with _ | ⟨c0, cs⟩
  · exact absurd hdc (decimalChars_ne_nil n)
  have hc0 : c0.isDigit := decimalChars_digits n c0 (by rw [hdc]; simp)
  obtain ⟨hw, hminus, hplus⟩ := isDigit_not_sign c0 hc0
  have hdrop : (c0 :: cs).dropWhile (fun c => c.isWhitespace) = c0 :: cs := by
    rw [List.dropWhile_cons, hw]
    simp
  simp only [hdrop, if_neg hminus, if_neg hplus]
  have htake := takeWhile_isDigit_decimalChars n
  rw [hdc] at htake
  simp only [htake]
  have hne : (c0 :: cs).isEmpty = false := rfl
  rw [hne]
  simp only [Bool.false_eq_true, if_false]
  have hparse := parse_decimalChars n
  rw [hdc] at hparse
  rw [hparse]
  simp

/-- parseIntJS inverts toString on integers. -/
theorem parseIntJS_toString (i : Int) : parseIntJS (toString i) = some i := by
  rcases i with m | m
  · show parseIntJS (toString m) = some (Int.ofNat m)
    rw [show toString m = Nat.repr m from rfl]
    rw [parseIntJS_natRepr m]
    rfl
  · show parseIntJS (("-") ++ toString (m + 1)) = some (Int.negSucc m)
    rw [parseIntJS]
    have htl : (("-") ++ toString (m + 1)).toList =
        '-' :: (toString (m + 1)).toList := by
      simp [String.toList, String.data_append]
    rw [htl]
    rw [show toString (m + 1) = Nat.repr (m + 1) from rfl, natRepr_eq]
    have htl2 : (String.mk (decimalChars (m + 1))).toList = decimalChars (m + 1) :=
      rfl
    rw [htl2]
    have hdrop : ('-' :: decimalChars (m + 1)).dropWhile
        (fun c => c.isWhitespace) = '-' :: decimalChars (m + 1) := by
      rw [List.dropWhile_cons]
      simp
    simp only [hdrop, if_pos rfl, if_true]
    have htake := takeWhile_isDigit_decimalChars (m + 1)
    simp only [htake]
    have hne : (decimalChars (m + 1)).isEmpty = false := by
      rcases hdc : decimalChars (m + 1) with _ | ⟨c0, cs⟩
      · exact absurd hdc (decimalChars_ne_nil (m + 1))
      · rfl
    rw [hne]
    simp only [Bool.false_eq_true, if_false]
    rw [parse_decimalChars (m + 1)]
    simp only [Option.some.injEq, Int.negSucc_eq]
    push_cast
    ring

/-! ## Canonical signing protocol (crypto request module, unnamed part 003) -/

/-- SignableRequest: method, url, optional body, optional timestamp in
milliseconds. -/
structure SignableRequest where
  method : String
  url : String
  body : Option String
  timestamp : Option Int

/-- SignOptions: the signer's private key and DID. -/
structure SignOptions where
  privateKey : List Nat
  did : String

/-- VerificationResult of verifyRequest: valid flag, optional error
message, and the expiredTimestamp flag set only on the tolerance path. -/
structure VerificationResult where
  valid : Bool
  error : Option String := none
  expiredTimestamp : Bool := false
  deriving DecidableEq

/-- Modelled from the spec: the external Ed25519 primitive of
@noble/ed25519 is abstracted as an idealized deterministic signature
scheme (spec section 9, Signer/Verifier capability); a signature is the
message together with the key, and the public key of a pair is modelled
as equal to its private key.  Nothing below depends on more than
sign/verify consistency and determinism. -/
def signMessage (message : List Nat) (privateKey : List Nat) : List Nat :=
  message ++ privateKey

/-- Modelled from the spec: verification side of the idealized signature
scheme; accepts exactly the signature signMessage produces for this
message under the key pair of publicKey. -/
def verifySignature (message signature publicKey : List Nat) : Bool :=
  signature == message ++ publicKey

/-- DEFAULT_TOLERANCE_MS = 5 * 60 * 1000. -/
def DEFAULT_TOLERANCE_MS : Int := 5 * 60 * 1000

/-- createCanonicalString: METHOD, URL, TIMESTAMP and BODYHASH joined by
newlines; the method upper-cased, the body hash the base64url SHA-256 of
the body when present and the empty string otherwise.  The external
SHA-256 primitive is the explicit parameter sha256; an absent request
timestamp falls back to the current time parameter now (Date.now()). -/
def createCanonicalString (sha256 : List Nat → List Nat) (now : Int)
    (request : SignableRequest) : String :=
  let method := upperStr request.method
  let url := request.url
  let timestamp := request.timestamp.getD now
  let bodyHash :=
    match request.body with
    | some body => base64urlEncode (sha256 (utf8Encode body))
    | none => ("")
  method ++ ("\n") ++ url ++ ("\n") ++ toString timestamp ++ ("\n") ++ bodyHash

/-- signRequest: resolve the timestamp (request timestamp or now), build
the canonical string, sign its UTF-8 bytes, and return the three signed
headers. -/
def signRequest (sha256 : List Nat → List Nat)
    (request : SignableRequest) (options : SignOptions) (now : Int) :
    List (String × String) :=
  let timestamp := request.timestamp.getD now
  let canonical := createCanonicalString sha256 now
    { request with timestamp := some timestamp }
  let message := utf8Encode canonical
  let signature := signMessage message options.privateKey
  [(("X-Agent-Signature"), base64urlEncode signature),
   (("X-Agent-DID"), options.did),
   (("X-Agent-Timestamp"), toString timestamp)]

/-- verifyRequest: case-insensitive header extraction with JavaScript
truthiness, timestamp parsing, the symmetric tolerance check against now
(Date.now()), reconstruction of the canonical string from the sidecar
method/url headers (defaulting to POST and the root path), and the
signature check. -/
def verifyRequest (sha256 : List Nat → List Nat)
    (headers : List (String × String)) (publicKey : List Nat)
    (body : Option String) (toleranceMs : Int) (now : Int) :
    VerificationResult :=
  match jsTruthy (getHeader headers ("X-Agent-Signature")) with
  | none => { valid := false, error := some ("Missing X-Agent-Signature header") }
  | some signature =>
  match jsTruthy (getHeader headers ("X-Agent-Timestamp")) with
  | none => { valid := false, error := some ("Missing X-Agent-Timestamp header") }
  | some timestamp =>
  match parseIntJS timestamp with
  | none => { valid := false, error := some ("Invalid timestamp format") }
  | some timestampNum =>
  if ((now - timestampNum).natAbs : Int) > toleranceMs then
    { valid := false, error := some ("Timestamp outside tolerance window"),
      expiredTimestamp := true }
  else
    let method := (getHeader headers ("X-Agent-Method")).getD ("POST")
    let url := (getHeader headers ("X-Agent-URL")).getD ("/")
    let canonical := createCanonicalString sha256 now
      { method := method, url := url, body := body,
        timestamp := some timestampNum }
    let message := utf8Encode canonical
    let signatureBytes := base64urlDecode signature
    if verifySignature message signatureBytes publicKey then
      { valid := true }
    else
      { valid := false, error := some ("Invalid signature") }

/-! Supporting lemmas about the signing protocol. -/

theorem getHeader_sig (v1 v2 v3 v4 v5 : String) :
    getHeader [(("X-Agent-Signature"), v1), (("X-Agent-DID"), v2),
      (("X-Agent-Timestamp"), v3), (("X-Agent-Method"), v4),
      (("X-Agent-URL"), v5)] ("X-Agent-Signature") = some v1 := rfl

theorem getHeader_ts (v1 v2 v3 v4 v5 : String) :
    getHeader [(("X-Agent-Signature"), v1), (("X-Agent-DID"), v2),
      (("X-Agent-Timestamp"), v3), (("X-Agent-Method"), v4),
      (("X-Agent-URL"), v5)] ("X-Agent-Timestamp") = some v3 := rfl

theorem getHeader_method (v1 v2 v3 v4 v5 : String) :
    getHeader [(("X-Agent-Signature"), v1), (("X-Agent-DID"), v2),
      (("X-Agent-Timestamp"), v3), (("X-Agent-Method"), v4),
      (("X-Agent-URL"), v5)] ("X-Agent-Method") = some v4 := rfl

theorem getHeader_url (v1 v2 v3 v4 v5 : String) :
    getHeader [(("X-Agent-Signature"), v1), (("X-Agent-DID"), v2),
      (("X-Agent-Timestamp"), v3), (("X-Agent-Method"), v4),
      (("X-Agent-URL"), v5)] ("X-Agent-URL") = some v5 := rfl

theorem utf8Char_ne_nil (c : Char) : utf8Char c ≠ [] := by
  rw [utf8Char]
  split_ifs <;> simp

theorem utf8Encode_ne_nil (s : String) (h : s.toList ≠ []) :
    utf8Encode s ≠ [] := by
  rw [utf8Encode]
  rcases hs : s.toList with _ | ⟨c, rest⟩
  · exact absurd hs h
  · simp only [List.map_cons, List.flatten_cons]
    intro hcon
    rcases List.append_eq_nil.mp hcon with ⟨h1, _⟩
    exact utf8Char_ne_nil c h1

theorem canonical_toList_ne_nil (sha256 : List Nat → List Nat) (now : Int)
    (request : SignableRequest) :
    (createCanonicalString sha256 now request).toList ≠ [] := by
  rw [createCanonicalString]
  simp only [String.toList, String.data_append]
  intro hcon
  rcases List.append_eq_nil.mp hcon with ⟨h1, h2⟩
  rcases List.append_eq_nil.mp h1 with ⟨h3, h4⟩
  rcases List.append_eq_nil.mp h3 with ⟨h5, h6⟩
  rcases List.append_eq_nil.mp h5 with ⟨h7, h8⟩
  exact absurd h8 (by decide)

theorem base64urlEncode_ne_empty (data : List Nat) (hne : data ≠ [])
    (h : ∀ x ∈ data, x < 256) : base64urlEncode data ≠ ("") := by
  intro hcon
  have hrt := base64urlDecode_encode data h
  rw [hcon] at hrt
  have : base64urlDecode ("") = [] := rfl
  rw [this] at hrt
  exact hne hrt.symm

theorem toString_int_ne_empty (i : Int) : toString i ≠ ("") := by
  intro hcon
  have := parseIntJS_toString i
  rw [hcon] at this
  have h2 : parseIntJS ("") = none := rfl
  rw [h2] at this
  exact Option.noConfusion this

theorem jsTruthy_some (s : String) (h : s ≠ ("")) :
    jsTruthy (some s) = some s := by
  rw [jsTruthy, if_neg h]

theorem canonical_indep (sha256 : List Nat → List Nat) (n1 n2 ts : Int)
    (request : SignableRequest) (h : request.timestamp = some ts) :
    createCanonicalString sha256 n1 request =
      createCanonicalString sha256 n2 request := by
  simp [createCanonicalString, h]

set_option maxHeartbeats 2000000 in
/-- Master lemma for signed requests: verification of the signed headers
(together with the sidecar method and url headers) reduces to the
tolerance test alone — it succeeds whenever the clock offset is within
tolerance and fails with the expired-timestamp error otherwise. -/
theorem verifyRequest_signRequest (sha256 : List Nat → List Nat)
    (request : SignableRequest) (options : SignOptions) (T tol now : Int)
    (hts : request.timestamp = none)
    (hkey : ∀ x ∈ options.privateKey, x < 256) :
    verifyRequest sha256
      (signRequest sha256 request options T ++
        [(("X-Agent-Method"), request.method), (("X-Agent-URL"), request.url)])
      options.privateKey request.body tol now =
      if ((now - T).natAbs : Int) > tol then
        { valid := false, error := some ("Timestamp outside tolerance window"),
          expiredTimestamp := true }
      else { valid := true } := by
  have hts' : request.timestamp.getD T = T := by rw [hts]; rfl
  set C := createCanonicalString sha256 T { request with timestamp := some T }
    with hC
  set sig := signMessage (utf8Encode C) options.privateKey with hsig
  have hsig_lt : ∀ x ∈ sig, x < 256 := by
    intro x hx
    rw [hsig, signMessage] at hx
    rcases List.mem_append.mp hx with hx | hx
    · exact utf8Encode_lt C x hx
    · exact hkey x hx
  have hsig_ne : sig ≠ [] := by
    rw [hsig, signMessage]
    intro hcon
    rcases List.append_eq_nil.mp hcon with ⟨h1, _⟩
    exact utf8Encode_ne_nil C (canonical_toList_ne_nil _ _ _) h1
  have hheaders : signRequest sha256 request options T ++
      [(("X-Agent-Method"), request.method), (("X-Agent-URL"), request.url)] =
      [(("X-Agent-Signature"), base64urlEncode sig),
       (("X-Agent-DID"), options.did),
       (("X-Agent-Timestamp"), toString T),
       (("X-Agent-Method"), request.method),
       (("X-Agent-URL"), request.url)] := by
    rw [signRequest]
    simp only [hts', ← hC, ← hsig, List.cons_append, List.nil_append]
  rw [hheaders, verifyRequest]
  rw [getHeader_sig, getHeader_ts]
  rw [jsTruthy_some _ (base64urlEncode_ne_empty sig hsig_ne hsig_lt)]
  rw [jsTruthy_some _ (toString_int_ne_empty T)]
  dsimp only
  rw [parseIntJS_toString]
  dsimp only
  by_cases hcond : ((now - T).natAbs : Int) > tol
  · rw [if_pos hcond, if_pos hcond]
  · rw [if_neg hcond, if_neg hcond]
    rw [getHeader_method, getHeader_url]
    simp only [Option.getD_some]
    have hcanon : createCanonicalString sha256 now
        { method := request.method, url := request.url, body := request.body,
          timestamp := some T } = C := by
      rw [hC]
      exact canonical_indep sha256 now T T _ rfl
    have hver : verifySignature (utf8Encode C) sig options.privateKey = true := by
      rw [verifySignature, hsig, signMessage]
      exact beq_self_eq_true _
    simp only [hcanon, base64urlDecode_encode sig hsig_lt, hver]
    simp

/-- With both required headers present and non-empty, the
invalid-timestamp-format failure occurs exactly when the timestamp header
value does not parse. -/
theorem verifyRequest_timestamp_format (sha256 : List Nat → List Nat)
    (headers : List (String × String)) (publicKey : List Nat)
    (body : Option String) (tol now : Int) (sig ts : String)
    (hsig : getHeader headers ("X-Agent-Signature") = some sig)
    (hsigne : sig ≠ (""))
    (hts : getHeader headers ("X-Agent-Timestamp") = some ts)
    (htsne : ts ≠ ("")) :
    (verifyRequest sha256 headers publicKey body tol now).error =
      some ("Invalid timestamp format") ↔ parseIntJS ts = none := by
  rw [verifyRequest, hsig, hts, jsTruthy_some _ hsigne, jsTruthy_some _ htsne]
  dsimp only
  rcases hp : parseIntJS ts with _ | n
  · simp
  · dsimp only
    constructor
    · intro hcon
      split_ifs at hcon with h1 h2 <;> exact absurd hcon (by decide)
    · intro hcon
      exact Option.noConfusion hcon

/-! ## DID format, well-known URL, and resolution
(packages/did/src/utils.ts and packages/did/src/resolve.ts) -/

/-- Character class [a-z0-9] of the DID method part. -/
def isMethodChar (c : Char) : Bool := c.isLower || c.isDigit

/-- Character class [a-zA-Z0-9._:%-] of the DID identifier part. -/
def isIdChar (c : Char) : Bool :=
  c.isAlpha || c.isDigit || c = '.' || c = '_' || c = ':' || c = '%' || c = '-'

/-- isValidDID from packages/did/src/utils.ts: the anchored regular
expression did, colon, a non-empty run of [a-z0-9], colon, and a
non-empty run of [a-zA-Z0-9._:%-] covering the rest of the string.  The
method class excludes the colon, so the regular expression matches
exactly when the greedy method run is followed by a colon and a valid
non-empty identifier tail. -/
def isValidDID (did : String) : Bool :=
  match did.toList with
  | 'd' :: 'i' :: 'd' :: ':' :: rest =>
    let m := rest.takeWhile isMethodChar
    let r := rest.dropWhile isMethodChar
    if m.isEmpty then false
    else
      match r with
      | ':' :: tail => !tail.isEmpty && tail.all isIdChar
      | _ => false
  | _ => false

/-- JavaScript String.prototype.split on the colon separator: the empty
string yields one empty part, and separators at the edges or adjacent to
each other yield empty parts. -/
def splitOnColon (cs : List Char) : List (List Char) :=
  cs.foldr
    (fun c acc =>
      if c = ':' then [] :: acc
      else
        match acc with
        | g :: gs => (c :: g) :: gs
        | [] => [[c]])
    [[]]

/-- Array.prototype.join on the colon separator. -/
def joinColon : List (List Char) → List Char
  | [] => []
  | [p] => p
  | p :: rest => p ++ ':' :: joinColon rest

/-- Array.prototype.join on the slash separator. -/
def joinSlash : List (List Char) → List Char
  | [] => []
  | [p] => p
  | p :: rest => p ++ '/' :: joinSlash rest

/-- getWellKnownUrl from packages/did/src/resolve.ts: require the
did:web: prefix (the thrown error is the spec's MethodNotSupported),
split the rest on colons into domain and path parts, and build either
the well-known URL or the path URL with colons as slashes. -/
def getWellKnownUrl (did : String) : Except String String :=
  if ¬ (("did:web:").toList.isPrefixOf did.toList) then
    .error ("Only did:web method is supported")
  else
    let parts := splitOnColon (did.toList.drop 8)
    let domain := parts.headD []
    let pathParts := parts.drop 1
    if pathParts.isEmpty then
      .ok (String.mk (("https://").toList ++ domain ++
        ("/.well-known/did.json").toList))
    else
      .ok (String.mk (("https://").toList ++ domain ++
        ('/' :: joinSlash pathParts) ++ ("/did.json").toList))

/-- Error kinds of didResolutionMetadata.error in resolveDID. -/
inductive ResolutionError
  | invalidDid
  | methodNotSupported
  | notFound
  | internalError
  | invalidDidDocument
  deriving DecidableEq

/-- The only field of a fetched DID document that resolveDID inspects is
id; the rest of the parsed JSON rides along opaquely and is irrelevant to
every branch below. -/
structure DIDDoc where
  id : String
  deriving DecidableEq

/-- Outcome of the single globalThis.fetch of the well-known URL: a
transport-level rejection of the promise, or an HTTP response carrying
its status, its parsed JSON body (none when response.json() throws on an
unparsable body), and the optional content-type and last-modified
headers. -/
inductive FetchOutcome
  | fetchError
  | response (status : Nat) (jsonBody : Option DIDDoc)
      (contentType lastModified : Option String)
  deriving DecidableEq

/-- Response.ok of the fetch API: status in the 2xx range. -/
def respOk (status : Nat) : Bool := 200 ≤ status && status ≤ 299

/-- DIDResolutionResult: the document on success, the resolution
metadata error otherwise, and the content-type / last-modified metadata
surfaced on success. -/
structure DIDResolutionResult where
  didDocument : Option DIDDoc
  error : Option ResolutionError
  contentType : Option String := none
  updated : Option String := none
  deriving DecidableEq

/-- resolveDID from packages/did/src/resolve.ts with the fetch outcome
passed explicitly: format check, method check, then the fetch; a non-ok
response maps 404 to notFound and anything else to internalError; a body
whose JSON parse throws lands in the outer catch as internalError; an id
mismatch is invalidDidDocument; success carries the document and header
metadata. -/
def resolveDID (did : String) (fetch : FetchOutcome) : DIDResolutionResult :=
  if ¬ isValidDID did then
    { didDocument := none, error := some .invalidDid }
  else if ¬ (("did:web:").toList.isPrefixOf did.toList) then
    { didDocument := none, error := some .methodNotSupported }
  else
    match fetch with
    | .fetchError => { didDocument := none, error := some .internalError }
    | .response status jsonBody contentType lastModified =>
      if ¬ respOk status then
        { didDocument := none,
          error := some (if status = 404 then .notFound else .internalError) }
      else
        match jsonBody with
        | none => { didDocument := none, error := some .internalError }
        | some doc =>
          if doc.id ≠ did then
            { didDocument := none, error := some .invalidDidDocument }
          else
            { didDocument := some doc, error := none,
              contentType := contentType, updated := lastModified }

/-! Split / join lemmas for the well-known URL computation. -/

theorem splitOnColon_step (c : Char) (l : List Char) :
    splitOnColon (c :: l) =
      (if c = ':' then [] :: splitOnColon l
       else
        match splitOnColon l with
        | g :: gs => (c :: g) :: gs
        | [] => [[c]]) := rfl

theorem splitOnColon_append (p : List Char) (hp : ∀ c ∈ p, c ≠ ':') :
    ∀ (l : List Char) (g : List Char) (gs : List (List Char)),
      splitOnColon l = g :: gs → splitOnColon (p ++ l) = (p ++ g) :: gs := by
  induction p with
  | nil => intro l g gs hl; simpa using hl
  | cons c p' ih =>
    intro l g gs hl
    have hc : c ≠ ':' := hp c (List.mem_cons_self _ _)
    have hrec := ih (fun x hx => hp x (List.mem_cons_of_mem _ hx)) l g gs hl
    rw [List.cons_append, splitOnColon_step, if_neg hc, hrec]
    rfl

theorem splitOnColon_nocolon (p : List Char) (hp : ∀ c ∈ p, c ≠ ':') :
    splitOnColon p = [p] := by
  have := splitOnColon_append p hp [] [] [] rfl
  simpa using this

theorem splitOnColon_joinColon :
    ∀ (parts : List (List Char)), parts ≠ [] →
      (∀ pa ∈ parts, ∀ c ∈ pa, c ≠ ':') →
      splitOnColon (joinColon parts) = parts := by
  intro parts
  induction parts with
  | nil => intro h _; exact absurd rfl h
  | cons p rest ih =>
    intro _ hno
    rcases rest with _ | ⟨q, rest'⟩
    · exact splitOnColon_nocolon p (hno p (List.mem_cons_self _ _))
    · have h2 := ih (List.cons_ne_nil _ _)
        (fun pa hpa c hc => hno pa (List.mem_cons_of_mem _ hpa) c hc)
      have hjoin : joinColon (p :: q :: rest') =
          p ++ ':' :: joinColon (q :: rest') := rfl
      rw [hjoin]
      have hcolon : splitOnColon (':' :: joinColon (q :: rest')) =
          [] :: (q :: rest') := by
        rw [splitOnColon_step, if_pos rfl, h2]
      have := splitOnColon_append p (hno p (List.mem_cons_self _ _))
        (':' :: joinColon (q :: rest')) [] (q :: rest') hcolon
      simpa using this

/-- General form of the well-known URL mapping for did:web identifiers
whose domain and path segments are colon-free. -/
theorem getWellKnownUrl_web (domain : List Char) (segs : List (List Char))
    (hd : ∀ c ∈ domain, c ≠ ':')
    (hs : ∀ p ∈ segs, ∀ c ∈ p, c ≠ ':') :
    getWellKnownUrl
        (String.mk (("did:web:").toList ++ joinColon (domain :: segs))) =
      if segs.isEmpty then
        .ok (String.mk (("https://").toList ++ domain ++
          ("/.well-known/did.json").toList))
      else
        .ok (String.mk (("https://").toList ++ domain ++
          ('/' :: joinSlash segs) ++ ("/did.json").toList)) := by
  have htl : (String.mk (("did:web:").toList ++
      joinColon (domain :: segs))).toList =
      ("did:web:").toList ++ joinColon (domain :: segs) := rfl
  rw [getWellKnownUrl, htl]
  have hpre : (("did:web:").toList.isPrefixOf
      (("did:web:").toList ++ joinColon (domain :: segs))) = true := by
    rw [ List.isPrefixOf_iff_prefix]
    exact List.prefix_append _ _
  rw [if_neg (by simp [hpre])]
  have hdrop : (("did:web:").toList ++ joinColon (domain :: segs)).drop 8 =
      joinColon (domain :: segs) := by
    have h8 : (("did:web:").toList).length = 8 := by decide
    rw [← h8, List.drop_left]
  rw [hdrop]
  have hsplit := splitOnColon_joinColon (domain :: segs) (by simp)
    (by
      intro pa hpa c hc
      rcases List.mem_cons.mp hpa with rfl | hpa
      · exact hd c hc
      · exact hs pa hpa c hc)
  rw [hsplit]
  rcases segs with _ | ⟨s, segs'⟩
  · rfl
  · rfl

/-! ## Atomic credit ledger
(supabase/migrations/00002_atomic_credit_function.sql and the registry
credit operations) -/

/-- credit_event_type enum of the schema. -/
inductive CreditEventType
  | registration
  | pr_merged
  | pr_rejected
  | test_failure
  | security_issue
  | manual_adjustment
  deriving DecidableEq

/-- An agents row restricted to the columns the credit function touches;
the generated uuid is carried as an opaque string. -/
structure AgentAccount where
  id : String
  did : String
  credits : Int
  deriving DecidableEq

/-- A credit_ledger row; the generated uuid primary key and created_at
default are database-generated and abstracted away. -/
structure CreditLedgerRow where
  agentId : String
  eventType : CreditEventType
  amount : Int
  balanceAfter : Int
  reason : String
  prUrl : Option String
  deriving DecidableEq

/-- The stored state the credit function touches. -/
structure CreditDb where
  agents : List AgentAccount
  ledger : List CreditLedgerRow
  deriving DecidableEq

/-- record_credit_event_atomic from
supabase/migrations/00002_atomic_credit_function.sql: the UPDATE sets
credits to GREATEST(0, credits + amount) on the row matching the DID and
returns id and the new balance, a missing row raises Agent not found,
then one credit_ledger row carrying the raw signed amount and the
clamped balance is inserted; both statements run in the one transaction
whose interleaved semantics is the transition system further below. -/
def record_credit_event_atomic (db : CreditDb) (p_did : String)
    (p_type : CreditEventType) (p_amount : Int) (p_reason : String)
    (p_pr_url : Option String) :
    Except String (CreditLedgerRow × CreditDb) :=
  match db.agents.find? (fun a => a.did == p_did) with
  | none => .error (("Agent not found: ") ++ p_did)
  | some agent =>
    let newBalance := max 0 (agent.credits + p_amount)
    let agents' := db.agents.map fun a =>
      if a.did == p_did then { a with credits := max 0 (a.credits + p_amount) }
      else a
    let row : CreditLedgerRow :=
      { agentId := agent.id, eventType := p_type, amount := p_amount,
        balanceAfter := newBalance, reason := p_reason, prUrl := p_pr_url }
    .ok (row, { agents := agents', ledger := db.ledger ++ [row] })

/-- CreditEvent input of recordCreditEvent. -/
structure CreditEvent where
  type : CreditEventType
  amount : Int
  reason : String
  prUrl : Option String

/-- CreditLedgerEntry as returned to callers (camel-case view of the
row; the generated id and createdAt are abstracted away). -/
structure CreditLedgerEntry where
  agentId : String
  type : CreditEventType
  amount : Int
  balanceAfter : Int
  reason : String
  prUrl : Option String
  deriving DecidableEq

/-- rowToLedgerEntry from the registry credit operations. -/
def rowToLedgerEntry (row : CreditLedgerRow) : CreditLedgerEntry :=
  { agentId := row.agentId, type := row.eventType, amount := row.amount,
    balanceAfter := row.balanceAfter, reason := row.reason,
    prUrl := row.prUrl }

/-- recordCreditEvent from the registry credit operations: delegate to
the atomic database function (event.prUrl with JavaScript truthiness, an
empty string becoming null) and convert the returned row. -/
def recordCreditEvent (db : CreditDb) (did : String) (event : CreditEvent) :
    Except String (CreditLedgerEntry × CreditDb) :=
  match record_credit_event_atomic db did event.type event.amount
      event.reason (jsTruthy event.prUrl) with
  | .error e => .error (("Failed to record credit event: ") ++ e)
  | .ok (row, db') => .ok (rowToLedgerEntry row, db')

/-- getCredits from the registry credit operations. -/
def getCredits (db : CreditDb) (did : String) : Except String Int :=
  match db.agents.find? (fun a => a.did == did) with
  | none => .error (("Agent not found: ") ++ did)
  | some agent => .ok agent.credits

/-! ## Interleaved semantics of concurrent +1 credit events -/

/-- Phase of one credit transaction: ready before its UPDATE, locked
between its UPDATE and its COMMIT, committed after. -/
inductive TxPhase
  | ready
  | locked
  | committed
  deriving DecidableEq

/-- Shared state of one identity under concurrent credit events: its
clamped balance, the number of ledger rows written for it, the phase of
each of the transactions, and the holder of its row lock. -/
structure LedgerSysState where
  credits : Int
  ledgerCount : Nat
  phases : List TxPhase
  lockHolder : Option Nat
  deriving DecidableEq

/-- Modelled from the spec: the row-level locking semantics the
database engine gives record_credit_event_atomic (section 5 of the
spec; the migration comment says the function locks the row and updates
atomically).  An update step is the UPDATE of a ready transaction when
no lock is held: it acquires the lock and applies the clamped increment
of one credit in one atomic step.  A commit step is the INSERT plus
COMMIT of the lock holder: it appends the ledger row and releases the
lock.  Transactions on the same identity interleave arbitrarily subject
only to the lock. -/
inductive CreditStep : LedgerSysState → LedgerSysState → Prop
  | update (s : LedgerSysState) (i : Nat)
      (h : s.phases[i]? = some TxPhase.ready) (hl : s.lockHolder = none) :
      CreditStep s
        { credits := max 0 (s.credits + 1), ledgerCount := s.ledgerCount,
          phases := s.phases.set i TxPhase.locked, lockHolder := some i }
  | commit (s : LedgerSysState) (i : Nat)
      (h : s.phases[i]? = some TxPhase.locked) (hl : s.lockHolder = some i) :
      CreditStep s
        { credits := s.credits, ledgerCount := s.ledgerCount + 1,
          phases := s.phases.set i TxPhase.committed, lockHolder := none }

/-- N transactions of amount +1 against an identity at balance 0, none
yet started, no ledger rows yet. -/
def initLedgerState (n : Nat) : LedgerSysState :=
  { credits := 0, ledgerCount := 0, phases := List.replicate n TxPhase.ready,
    lockHolder := none }

/-- Reachability under arbitrary interleaving of the transaction steps. -/
def LedgerReachable (n : Nat) (s : LedgerSysState) : Prop :=
  Relation.ReflTransGen CreditStep (initLedgerState n) s

theorem countP_set_add {α : Type} (p : α → Bool) :
    ∀ (l : List α) (i : Nat) (a b : α), l[i]? = some b →
      (l.set i a).countP p + (if p b then 1 else 0) =
        l.countP p + (if p a then 1 else 0) := by
  intro l
  induction l with
  | nil => intro i a b h; simp at h
  | cons x tl ih =>
    intro i a b h
    rcases i with _ | i
    · simp only [List.getElem?_cons_zero, Option.some.injEq] at h
      subst h
      simp only [List.set_cons_zero, List.countP_cons]
      omega
    · simp only [List.getElem?_cons_succ] at h
      simp only [List.set_cons_succ, List.countP_cons]
      have := ih i a b h
      omega

/-- A transaction is past its UPDATE. -/
def notReady (ph : TxPhase) : Bool := ph ≠ TxPhase.ready

/-- A transaction is committed. -/
def isCommitted (ph : TxPhase) : Bool := ph = TxPhase.committed

/-- The inductive invariant of the interleaving: the balance equals the
number of transactions past their UPDATE, the ledger rows equal the
number of committed transactions, and the transaction count never
changes. -/
def LedgerInv (n : Nat) (s : LedgerSysState) : Prop :=
  s.phases.length = n ∧
  s.credits = (s.phases.countP notReady : Int) ∧
  s.ledgerCount = s.phases.countP isCommitted

theorem ledgerInv_init (n : Nat) : LedgerInv n (initLedgerState n) := by
  refine ⟨by simp [initLedgerState], ?_, ?_⟩ <;>
    simp [initLedgerState, List.countP_eq_length_filter,
      List.filter_replicate, notReady, isCommitted]

theorem ledgerInv_step (n : Nat) (s t : LedgerSysState)
    (hstep : CreditStep s t) (hinv : LedgerInv n s) : LedgerInv n t := by
  obtain ⟨hlen, hcred, hledg⟩ := hinv
  cases hstep with
  | update i h hl =>
    have h1 := countP_set_add notReady s.phases i TxPhase.locked TxPhase.ready h
    have h2 := countP_set_add isCommitted s.phases i TxPhase.locked
      TxPhase.ready h
    rw [show notReady TxPhase.ready = false from rfl,
      show notReady TxPhase.locked = true from rfl] at h1
    rw [show isCommitted TxPhase.ready = false from rfl,
      show isCommitted TxPhase.locked = false from rfl] at h2
    norm_num at h1 h2
    refine ⟨by simpa using hlen, ?_, ?_⟩
    · show max 0 (s.credits + 1) =
        ((s.phases.set i TxPhase.locked).countP notReady : Int)
      omega
    · show s.ledgerCount =
        (s.phases.set i TxPhase.locked).countP isCommitted
      omega
  | commit i h hl =>
    have h1 := countP_set_add notReady s.phases i TxPhase.committed
      TxPhase.locked h
    have h2 := countP_set_add isCommitted s.phases i TxPhase.committed
      TxPhase.locked h
    rw [show notReady TxPhase.locked = true from rfl,
      show notReady TxPhase.committed = true from rfl] at h1
    rw [show isCommitted TxPhase.locked = false from rfl,
      show isCommitted TxPhase.committed = true from rfl] at h2
    norm_num at h1 h2
    refine ⟨by simpa using hlen, ?_, ?_⟩
    · show s.credits =
        ((s.phases.set i TxPhase.committed).countP notReady : Int)
      omega
    · show s.ledgerCount + 1 =
        (s.phases.set i TxPhase.committed).countP isCommitted
      omega

theorem ledgerInv_reachable (n : Nat) (s : LedgerSysState)
    (h : LedgerReachable n s) : LedgerInv n s := by
  induction h with
  | refl => exact ledgerInv_init n
  | tail _ hstep ih => exact ledgerInv_step n _ _ hstep ih

/-! ## Registry signature verification (unnamed part 010) -/

/-- agent_status enum. -/
inductive AgentStatus
  | active
  | suspended
  | revoked
  deriving DecidableEq

/-- The interpolated rendering of a status in the Agent is ... error. -/
def AgentStatus.toStr : AgentStatus → String
  | .active => ("active")
  | .suspended => ("suspended")
  | .revoked => ("revoked")

/-- An agents row restricted to the fields verifyAgentSignature reads
(the did filter, the status gate, and the hex public key); the remaining
rowToAgent fields ride along in the database untouched. -/
structure RegistryAgent where
  id : String
  did : String
  publicKey : String
  status : AgentStatus
  deriving DecidableEq

/-- A signature_cache row: signature_hash is the primary key, agent_did
and timestamp ride along (the ISO rendering of the stored timestamp is
abstracted to the raw header string). -/
structure CacheRow where
  signatureHash : String
  agentDid : String
  timestamp : String
  deriving DecidableEq

/-- The stored state verifyAgentSignature touches. -/
structure RegistryDb where
  agents : List RegistryAgent
  signatureCache : List CacheRow
  deriving DecidableEq

/-- VerifyResult of the registry verification operations. -/
structure VerifyResult where
  valid : Bool
  agent : Option RegistryAgent := none
  error : Option String := none
  deriving DecidableEq

/-- The externally visible effects verifyAgentSignature performs, in
order: the agent lookup, the replay-cache lookup, the cryptographic
verification, and the cache insert. -/
inductive RegistryAction
  | queryAgent
  | queryCache
  | cryptoVerify
  | insertCache
  deriving DecidableEq

/-- String.prototype.match with the one-or-two-character chunk pattern:
splits into pairs with a possibly shorter final chunk. -/
def chunksOf2 : List Char → List (List Char)
  | [] => []
  | [c] => [[c]]
  | c1 :: c2 :: rest => [c1, c2] :: chunksOf2 rest

/-- Value of one hexadecimal digit, none outside [0-9a-fA-F]. -/
def hexCharVal (c : Char) : Option Nat :=
  if c.isDigit then some (c.toNat - 48)
  else if 'a' ≤ c ∧ c ≤ 'f' then some (c.toNat - 87)
  else if 'A' ≤ c ∧ c ≤ 'F' then some (c.toNat - 55) else none

/-- Number.parseInt(chunk, 16) of a one- or two-character chunk followed
by the Uint8Array coercion: a leading non-digit gives NaN, which the
typed array stores as 0; a trailing non-digit is simply not consumed. -/
def parseHexChunk : List Char → Nat
  | [] => 0
  | [c] => (hexCharVal c).getD 0
  | c1 :: c2 :: _ =>
    match hexCharVal c1, hexCharVal c2 with
    | some v1, some v2 => v1 * 16 + v2
    | some v1, none => v1
    | none, _ => 0

/-- The hex public-key decoding of verifyAgentSignature: match returns
null on the empty string (the invalid-public-key branch), otherwise the
chunks are parsed into bytes. -/
def hexToBytes (s : String) : Option (List Nat) :=
  match s.toList with
  | [] => none
  | cs => some ((chunksOf2 cs).map parseHexChunk)

/-- verifyAgentSignature from the registry verification operations
(unnamed part 010): look the agent up by DID, refuse any non-active
status, hash the raw signature string (the external SHA-256 hex digest
is the parameter sha256hex) and refuse a signature whose hash is already
cached, decode the stored hex public key, delegate to verifyRequest with
the signature and timestamp headers and the message as body, and on
success insert the hash into the cache before reporting valid.  Returns
the result, the updated store, and the list of performed actions. -/
def verifyAgentSignature (sha256hex : String → String)
    (sha256 : List Nat → List Nat) (db : RegistryDb)
    (did signature message timestamp : String) (now : Int) :
    VerifyResult × RegistryDb × List RegistryAction :=
  match db.agents.find? (fun a => a.did == did) with
  | none =>
    ({ valid := false, error := some (("Agent not found: ") ++ did) }, db,
     [.queryAgent])
  | some agent =>
    if agent.status ≠ AgentStatus.active then
      ({ valid := false, agent := some agent,
         error := some (("Agent is ") ++ agent.status.toStr) }, db,
       [.queryAgent])
    else
      let signatureHash := sha256hex signature
      if (db.signatureCache.find?
          (fun row => row.signatureHash == signatureHash)).isSome then
        ({ valid := false, agent := some agent,
           error := some ("Signature already used (replay attack detected)") },
         db, [.queryAgent, .queryCache])
      else
        match hexToBytes agent.publicKey with
        | none =>
          ({ valid := false, agent := some agent,
             error := some ("Invalid public key format") }, db,
           [.queryAgent, .queryCache])
        | some publicKeyBytes =>
          let result := verifyRequest sha256
            [(("x-agent-signature"), signature),
             (("x-agent-timestamp"), timestamp)]
            publicKeyBytes (some message) DEFAULT_TOLERANCE_MS now
          if result.valid then
            ({ valid := true, agent := some agent },
             { db with signatureCache := db.signatureCache ++
                 [{ signatureHash := signatureHash, agentDid := did,
                    timestamp := timestamp }] },
             [.queryAgent, .queryCache, .cryptoVerify, .insertCache])
          else
            ({ valid := false, agent := some agent,
               error := some (result.error.getD
                 ("Signature verification failed")) }, db,
             [.queryAgent, .queryCache, .cryptoVerify])

/-! Branch shape lemmas for verifyAgentSignature. -/

theorem vas_nofind (sha256hex : String → String)
    (sha256 : List Nat → List Nat) (db : RegistryDb)
    (did signature message timestamp : String) (now : Int)
    (hfind : db.agents.find? (fun a => a.did == did) = none) :
    verifyAgentSignature sha256hex sha256 db did signature message timestamp
      now =
    ({ valid := false, error := some (("Agent not found: ") ++ did) }, db,
     [.queryAgent]) := by
  rw [verifyAgentSignature, hfind]

theorem vas_inactive (sha256hex : String → String)
    (sha256 : List Nat → List Nat) (db : RegistryDb)
    (did signature message timestamp : String) (now : Int)
    (agent : RegistryAgent)
    (hfind : db.agents.find? (fun a => a.did == did) = some agent)
    (hstatus : agent.status ≠ AgentStatus.active) :
    verifyAgentSignature sha256hex sha256 db did signature message timestamp
      now =
    ({ valid := false, agent := some agent,
       error := some (("Agent is ") ++ agent.status.toStr) }, db,
     [.queryAgent]) := by
  rw [verifyAgentSignature, hfind]
  dsimp only
  rw [if_pos hstatus]

theorem vas_replay (sha256hex : String → String)
    (sha256 : List Nat → List Nat) (db : RegistryDb)
    (did signature message timestamp : String) (now : Int)
    (agent : RegistryAgent)
    (hfind : db.agents.find? (fun a => a.did == did) = some agent)
    (hactive : agent.status = AgentStatus.active)
    (hcache : (db.signatureCache.find?
      (fun row => row.signatureHash == sha256hex signature)).isSome) :
    verifyAgentSignature sha256hex sha256 db did signature message timestamp
      now =
    ({ valid := false, agent := some agent,
       error := some ("Signature already used (replay attack detected)") },
     db, [.queryAgent, .queryCache]) := by
  rw [verifyAgentSignature, hfind]
  dsimp only
  rw [if_neg (by simp [hactive])]
  rw [if_pos hcache]

theorem vas_badkey (sha256hex : String → String)
    (sha256 : List Nat → List Nat) (db : RegistryDb)
    (did signature message timestamp : String) (now : Int)
    (agent : RegistryAgent)
    (hfind : db.agents.find? (fun a => a.did == did) = some agent)
    (hactive : agent.status = AgentStatus.active)
    (hcache : (db.signatureCache.find?
      (fun row => row.signatureHash == sha256hex signature)).isSome = false)
    (hpk : hexToBytes agent.publicKey = none) :
    verifyAgentSignature sha256hex sha256 db did signature message timestamp
      now =
    ({ valid := false, agent := some agent,
       error := some ("Invalid public key format") }, db,
     [.queryAgent, .queryCache]) := by
  rw [verifyAgentSignature, hfind]
  dsimp only
  rw [if_neg (by simp [hactive])]
  rw [if_neg (by simp [hcache]), hpk]

theorem vas_cryptofail (sha256hex : String → String)
    (sha256 : List Nat → List Nat) (db : RegistryDb)
    (did signature message timestamp : String) (now : Int)
    (agent : RegistryAgent) (publicKeyBytes : List Nat)
    (hfind : db.agents.find? (fun a => a.did == did) = some agent)
    (hactive : agent.status = AgentStatus.active)
    (hcache : (db.signatureCache.find?
      (fun row => row.signatureHash == sha256hex signature)).isSome = false)
    (hpk : hexToBytes agent.publicKey = some publicKeyBytes)
    (hr : (verifyRequest sha256
      [(("x-agent-signature"), signature), (("x-agent-timestamp"), timestamp)]
      publicKeyBytes (some message) DEFAULT_TOLERANCE_MS now).valid = false) :
    verifyAgentSignature sha256hex sha256 db did signature message timestamp
      now =
    ({ valid := false, agent := some agent,
       error := some ((verifyRequest sha256
        [(("x-agent-signature"), signature),
         (("x-agent-timestamp"), timestamp)]
        publicKeyBytes (some message) DEFAULT_TOLERANCE_MS now).error.getD
          ("Signature verification failed")) }, db,
     [.queryAgent, .queryCache, .cryptoVerify]) := by
  rw [verifyAgentSignature, hfind]
  dsimp only
  rw [if_neg (by simp [hactive])]
  rw [if_neg (by simp [hcache]), hpk]
  dsimp only
  rw [if_neg (by simp [hr])]

theorem vas_success (sha256hex : String → String)
    (sha256 : List Nat → List Nat) (db : RegistryDb)
    (did signature message timestamp : String) (now : Int)
    (agent : RegistryAgent) (publicKeyBytes : List Nat)
    (hfind : db.agents.find? (fun a => a.did == did) = some agent)
    (hactive : agent.status = AgentStatus.active)
    (hcache : (db.signatureCache.find?
      (fun row => row.signatureHash == sha256hex signature)).isSome = false)
    (hpk : hexToBytes agent.publicKey = some publicKeyBytes)
    (hr : (verifyRequest sha256
      [(("x-agent-signature"), signature), (("x-agent-timestamp"), timestamp)]
      publicKeyBytes (some message) DEFAULT_TOLERANCE_MS now).valid = true) :
    verifyAgentSignature sha256hex sha256 db did signature message timestamp
      now =
    ({ valid := true, agent := some agent },
     { agents := db.agents, signatureCache := db.signatureCache ++
         [{ signatureHash := sha256hex signature, agentDid := did,
            timestamp := timestamp }] },
     [.queryAgent, .queryCache, .cryptoVerify, .insertCache]) := by
  rw [verifyAgentSignature, hfind]
  dsimp only
  rw [if_neg (by simp [hactive])]
  rw [if_neg (by simp [hcache]), hpk]
  dsimp only
  rw [if_pos hr]

/-- A verification that reports valid leaves the agents untouched and
the hash of the verified signature present in the cache. -/
theorem vas_valid_state (sha256hex : String → String)
    (sha256 : List Nat → List Nat) (db : RegistryDb)
    (did signature message timestamp : String) (now : Int)
    (hvalid : (verifyAgentSignature sha256hex sha256 db did signature message
      timestamp now).1.valid = true) :
    (verifyAgentSignature sha256hex sha256 db did signature message
      timestamp now).2.1.agents = db.agents ∧
    ((verifyAgentSignature sha256hex sha256 db did signature message
      timestamp now).2.1.signatureCache.find?
        (fun row => row.signatureHash == sha256hex signature)).isSome := by
  rcases hfind : db.agents.find? (fun a => a.did == did) with _ | agent
  · rw [vas_nofind sha256hex sha256 db did signature message timestamp now
      hfind] at hvalid ⊢
    exact absurd hvalid (by simp)
  by_cases hactive : agent.status = AgentStatus.active
  · by_cases hcache : (db.signatureCache.find?
        (fun row => row.signatureHash == sha256hex signature)).isSome
    · rw [vas_replay sha256hex sha256 db did signature message timestamp now
        agent hfind hactive hcache] at hvalid ⊢
      exact absurd hvalid (by simp)
    · rcases hpk : hexToBytes agent.publicKey with _ | publicKeyBytes
      · rw [vas_badkey sha256hex sha256 db did signature message timestamp now
          agent hfind hactive (by simpa using hcache) hpk] at hvalid ⊢
        exact absurd hvalid (by simp)
      · by_cases hr : (verifyRequest sha256
            [(("x-agent-signature"), signature),
             (("x-agent-timestamp"), timestamp)]
            publicKeyBytes (some message) DEFAULT_TOLERANCE_MS now).valid = true
        · rw [vas_success sha256hex sha256 db did signature message timestamp
            now agent publicKeyBytes hfind hactive (by simpa using hcache) hpk
            hr]
          refine ⟨rfl, ?_⟩
          rw [List.find?_append]
          rcases hfirst : db.signatureCache.find?
              (fun row => row.signatureHash == sha256hex signature) with _ | r
          · simp
          · simp
        · rw [vas_cryptofail sha256hex sha256 db did signature message
            timestamp now agent publicKeyBytes hfind hactive
            (by simpa using hcache) hpk (by simpa using hr)] at hvalid ⊢
          exact absurd hvalid (by simp)
  · rw [vas_inactive sha256hex sha256 db did signature message timestamp now
      agent hfind hactive] at hvalid ⊢
    exact absurd hvalid (by simp)

/-- A second verification of the same signature string after a valid one
never reports valid, whatever its message, timestamp, or clock. -/
theorem vas_never_valid_twice (sha256hex : String → String)
    (sha256 : List Nat → List Nat) (db : RegistryDb)
    (did signature message timestamp : String) (now : Int)
    (message2 timestamp2 : String) (now2 : Int)
    (hvalid : (verifyAgentSignature sha256hex sha256 db did signature message
      timestamp now).1.valid = true) :
    (verifyAgentSignature sha256hex sha256
      (verifyAgentSignature sha256hex sha256 db did signature message
        timestamp now).2.1
      did signature message2 timestamp2 now2).1.valid = false := by
  obtain ⟨hagents, hcache⟩ := vas_valid_state sha256hex sha256 db did
    signature message timestamp now hvalid
  set db1 := (verifyAgentSignature sha256hex sha256 db did signature message
    timestamp now).2.1 with hdb1
  rcases hfind : db1.agents.find? (fun a => a.did == did) with _ | agent
  · rw [vas_nofind sha256hex sha256 db1 did signature message2 timestamp2 now2
      hfind]
  by_cases hactive : agent.status = AgentStatus.active
  · rw [vas_replay sha256hex sha256 db1 did signature message2 timestamp2 now2
      agent hfind hactive hcache]
  · rw [vas_inactive sha256hex sha256 db1 did signature message2 timestamp2
      now2 agent hfind hactive]

/-- The UPDATE of record_credit_event_atomic, seen through a did lookup:
the first row matching the DID is the found row with its balance
clamped-updated. -/
theorem find?_map_update (did : String) (amount : Int) :
    ∀ (l : List AgentAccount) (agent : AgentAccount),
      l.find? (fun a => a.did == did) = some agent →
      (l.map fun a =>
        if a.did == did then { a with credits := max 0 (a.credits + amount) }
        else a).find? (fun a => a.did == did) =
        some { agent with credits := max 0 (agent.credits + amount) } := by
  intro l
  induction l with
  | nil => intro agent h; simp at h
  | cons x tl ih =>
    intro agent h
    by_cases hx : (x.did == did) = true
    · rw [@List.find?_cons_of_pos _ (fun a : AgentAccount => a.did == did) x tl hx] at h
      have hxa : x = agent := by simpa using h
      subst hxa
      rw [List.map_cons, if_pos hx]
      exact @List.find?_cons_of_pos _ (fun a : AgentAccount => a.did == did) _ _
        (by simpa using hx)
    · rw [@List.find?_cons_of_neg _ (fun a : AgentAccount => a.did == did) x tl hx] at h
      rw [List.map_cons, if_neg hx]
      rw [@List.find?_cons_of_neg _ (fun a : AgentAccount => a.did == did) x _ hx]
      exact ih agent h

/-! ## Claim theorems -/

/-- C5: round trips of the codec layer.  For every 32-byte public key k,
multibaseToPublicKey inverts publicKeyToMultibase; for every byte string,
base64urlDecode inverts base64urlEncode (the encoder emits no padding and
the decoder restores it), and decodeBase58 inverts encodeBase58, leading
zero bytes included. -/
theorem claim_C5 (k bs : List Nat) (hk32 : k.length = 32)
    (hk : ∀ x ∈ k, x < 256) (hbs : ∀ x ∈ bs, x < 256) :
    multibaseToPublicKey (publicKeyToMultibase k) = .ok k ∧
    base64urlDecode (base64urlEncode bs) = bs ∧
    decodeBase58 (encodeBase58 bs) = .ok bs :=
  ⟨multibase_roundTrip k hk32 hk, base64urlDecode_encode bs hbs,
   decodeBase58_encodeBase58 bs hbs⟩

theorem claim_C5_witness :
    multibaseToPublicKey (publicKeyToMultibase (List.replicate 32 0)) =
      .ok (List.replicate 32 0) ∧
    base64urlDecode (base64urlEncode [0, 0, 31, 255]) = [0, 0, 31, 255] ∧
    decodeBase58 (encodeBase58 [0, 0, 31, 255]) = .ok [0, 0, 31, 255] :=
  claim_C5 (List.replicate 32 0) [0, 0, 31, 255] (by decide) (by decide)
    (by decide)

/-- C6 counterexample: a multibase string whose base58 decode is longer
than 34 bytes passes the codec check and returns 33 bytes — everything
after the two tag bytes — not the trailing 32 bytes the claim states. -/
theorem claim_C6_counterexample :
    multibaseToPublicKey (publicKeyToMultibase (List.replicate 33 7)) =
      .ok (List.replicate 33 7) ∧ (List.replicate 33 7).length = 33 :=
  ⟨rfl, rfl⟩

/-- C6 as amended: multibaseToPublicKey fails with the invalid-multibase
error when the string does not start with z; when the base58 decode
succeeds it fails with the invalid-codec error exactly when the decode is
shorter than 34 bytes or the first two bytes are not the 0xed 0x01 tag,
and otherwise returns every byte after the two tag bytes (the trailing 32
exactly when the decode is 34 bytes long); a character outside the base58
alphabet surfaces as the distinct base58 decode error. -/
theorem claim_C6 (s : String) :
    (s.toList.head? ≠ some 'z' →
      multibaseToPublicKey s = .error KeyError.invalidMultibaseFormat) ∧
    (∀ rest ch, s.toList = 'z' :: rest → decodeBase58L rest = .error ch →
      multibaseToPublicKey s = .error (KeyError.invalidBase58 ch)) ∧
    (∀ rest decoded, s.toList = 'z' :: rest →
      decodeBase58L rest = .ok decoded →
      (decoded.length < 34 ∨ decoded.getD 0 0 ≠ 0xed ∨
        decoded.getD 1 0 ≠ 0x01) →
      multibaseToPublicKey s = .error KeyError.invalidCodec) ∧
    (∀ rest decoded, s.toList = 'z' :: rest →
      decodeBase58L rest = .ok decoded →
      ¬(decoded.length < 34 ∨ decoded.getD 0 0 ≠ 0xed ∨
        decoded.getD 1 0 ≠ 0x01) →
      multibaseToPublicKey s = .ok (decoded.drop 2)) := by
  refine ⟨?_, ?_, ?_, ?_⟩
  · intro h
    rw [multibaseToPublicKey]
    rcases hl : s.toList with _ | ⟨c, rest⟩
    · rfl
    · rw [hl] at h
      have hc : c ≠ 'z' := by
        intro hcz
        subst hcz
        exact h rfl
    
      rw [multibaseToPublicKeyL, if_neg hc]
  · intro rest ch hl hdec
    rw [multibaseToPublicKey, hl, multibaseToPublicKeyL, if_pos rfl, hdec]
  · intro rest decoded hl hdec hcond
    rw [multibaseToPublicKey, hl, multibaseToPublicKeyL, if_pos rfl, hdec]
    dsimp only
    rw [if_pos hcond]
  · intro rest decoded hl hdec hcond
    rw [multibaseToPublicKey, hl, multibaseToPublicKeyL, if_pos rfl, hdec]
    dsimp only
    rw [if_neg hcond]

theorem claim_C6_witness :
    multibaseToPublicKey ("abc") = .error KeyError.invalidMultibaseFormat ∧
    multibaseToPublicKey ("z") = .error KeyError.invalidCodec := by
  constructor
  · exact (claim_C6 ("abc")).1 (by decide)
  · exact (claim_C6 ("z")).2.2.1 [] [] rfl rfl (by decide)

/-- C8: getWellKnownUrl maps the two reference did:web identifiers to the
well-known and path URLs, fails with the method-not-supported error on
every string without the did:web: prefix (in particular every DID of
another method), and in general maps a colon-free domain with path
segments to the https URL with colons as path separators and did.json
appended, or to the .well-known URL when there are no segments. -/
theorem claim_C8 :
    getWellKnownUrl ("did:web:example.com") =
      .ok ("https://example.com/.well-known/did.json") ∧
    getWellKnownUrl ("did:web:example.com:agents:claude") =
      .ok ("https://example.com/agents/claude/did.json") ∧
    getWellKnownUrl
        ("did:key:z6MkhaXgBZDvotDkL5257faiztiGiC2QtKLGpbnnEGta2doK") =
      .error ("Only did:web method is supported") ∧
    (∀ did : String, ¬ (("did:web:").toList.isPrefixOf did.toList) →
      getWellKnownUrl did = .error ("Only did:web method is supported")) ∧
    (∀ (domain : List Char) (segs : List (List Char)),
      (∀ c ∈ domain, c ≠ ':') → (∀ p ∈ segs, ∀ c ∈ p, c ≠ ':') →
      getWellKnownUrl
          (String.mk (("did:web:").toList ++ joinColon (domain :: segs))) =
        if segs.isEmpty then
          .ok (String.mk (("https://").toList ++ domain ++
            ("/.well-known/did.json").toList))
        else
          .ok (String.mk (("https://").toList ++ domain ++
            ('/' :: joinSlash segs) ++ ("/did.json").toList))) := by
  refine ⟨rfl, rfl, rfl, ?_, ?_⟩
  · intro did h
    rw [getWellKnownUrl, if_pos h]
  · intro domain segs hd hs
    exact getWellKnownUrl_web domain segs hd hs

theorem claim_C8_witness :
    getWellKnownUrl ("did:key:abc") =
      .error ("Only did:web method is supported") ∧
    getWellKnownUrl (String.mk (("did:web:").toList ++
        joinColon [("localhost").toList, ("3000").toList])) =
      .ok (String.mk (("https://").toList ++ ("localhost").toList ++
        ('/' :: joinSlash [("3000").toList]) ++ ("/did.json").toList)) := by
  constructor
  · exact claim_C8.2.2.2.1 ("did:key:abc") (by decide)
  · have := claim_C8.2.2.2.2 (("localhost").toList) [("3000").toList]
      (by decide) (by decide)
    simpa using this

/-- C3: a request signed at time T (its timestamp left to the signer)
verifies at time T under the default 300000 ms tolerance; the same signed
headers at T plus 600000 fail with the expired-timestamp error; with an
explicit 600000 ms tolerance they verify; and for every clock and
tolerance the expired flag is set exactly when the absolute clock offset
exceeds the tolerance, so future and past timestamps are rejected
symmetrically.  The verifier receives the caller-supplied sidecar method
and url headers prescribed by the protocol. -/
theorem claim_C3 (sha256 : List Nat → List Nat) (request : SignableRequest)
    (options : SignOptions) (T : Int)
    (hts : request.timestamp = none)
    (hkey : ∀ x ∈ options.privateKey, x < 256) :
    (verifyRequest sha256
      (signRequest sha256 request options T ++
        [(("X-Agent-Method"), request.method), (("X-Agent-URL"), request.url)])
      options.privateKey request.body DEFAULT_TOLERANCE_MS T =
      { valid := true }) ∧
    (verifyRequest sha256
      (signRequest sha256 request options T ++
        [(("X-Agent-Method"), request.method), (("X-Agent-URL"), request.url)])
      options.privateKey request.body DEFAULT_TOLERANCE_MS (T + 600000) =
      { valid := false, error := some ("Timestamp outside tolerance window"),
        expiredTimestamp := true }) ∧
    (verifyRequest sha256
      (signRequest sha256 request options T ++
        [(("X-Agent-Method"), request.method), (("X-Agent-URL"), request.url)])
      options.privateKey request.body 600000 (T + 600000) =
      { valid := true }) ∧
    (∀ now tol : Int,
      (verifyRequest sha256
        (signRequest sha256 request options T ++
          [(("X-Agent-Method"), request.method),
           (("X-Agent-URL"), request.url)])
        options.privateKey request.body tol now).expiredTimestamp = true ↔
        ((now - T).natAbs : Int) > tol) := by
  refine ⟨?_, ?_, ?_, ?_⟩
  · rw [verifyRequest_signRequest sha256 request options T
      DEFAULT_TOLERANCE_MS T hts hkey]
    rw [if_neg (by simp [DEFAULT_TOLERANCE_MS])]
  · rw [verifyRequest_signRequest sha256 request options T
      DEFAULT_TOLERANCE_MS (T + 600000) hts hkey]
    rw [if_pos (by
      have : T + 600000 - T = 600000 := by ring
      rw [this]
      simp [DEFAULT_TOLERANCE_MS])]
  · rw [verifyRequest_signRequest sha256 request options T 600000
      (T + 600000) hts hkey]
    rw [if_neg (by
      have : T + 600000 - T = 600000 := by ring
      rw [this]
      simp)]
  · intro now tol
    rw [verifyRequest_signRequest sha256 request options T tol now hts hkey]
    split_ifs with h
    · exact ⟨fun _ => h, fun _ => rfl⟩
    · constructor
      · intro hcon
        exact absurd hcon (by simp)
      · intro hcon
        exact absurd hcon h

theorem claim_C3_witness :
    verifyRequest (fun _ => [])
      (signRequest (fun _ => [])
        { method := ("GET"), url := ("/x"), body := some ("b"),
          timestamp := none }
        { privateKey := [1, 2], did := ("d") } 5 ++
        [(("X-Agent-Method"), ("GET")), (("X-Agent-URL"), ("/x"))])
      [1, 2] (some ("b")) DEFAULT_TOLERANCE_MS 5 = { valid := true } :=
  (claim_C3 (fun _ => [])
    { method := ("GET"), url := ("/x"), body := some ("b"),
      timestamp := none }
    { privateKey := [1, 2], did := ("d") } 5 rfl (by decide)).1

/-- C7 counterexample: a header map that contains both headers, with an
empty timestamp value, fails with the missing-timestamp error — not the
invalid-timestamp-format error — although the empty value does not parse
as an integer; the JavaScript truthiness check routes empty values to the
missing-header branch. -/
theorem claim_C7_counterexample :
    getHeader [(("x-agent-signature"), ("AA")),
      (("x-agent-timestamp"), (""))] (("X-Agent-Timestamp")) = some ("") ∧
    parseIntJS ("") = none ∧
    (verifyRequest (fun _ => [])
      [(("x-agent-signature"), ("AA")), (("x-agent-timestamp"), (""))]
      [] none 300000 0).error = some ("Missing X-Agent-Timestamp header") ∧
    ("Missing X-Agent-Timestamp header") ≠ ("Invalid timestamp format") := by
  refine ⟨rfl, rfl, rfl, by decide⟩

/-- C7 as amended: for every header map whose signature and timestamp
headers are present with non-empty values, verifyRequest fails with the
invalid-timestamp-format error exactly when the timestamp value does not
parse as an integer (in the Number.parseInt sense), and on a parse
failure the whole result is the invalid-format failure. -/
theorem claim_C7 (sha256 : List Nat → List Nat)
    (headers : List (String × String)) (publicKey : List Nat)
    (body : Option String) (tol now : Int) (sig ts : String)
    (hsig : getHeader headers ("X-Agent-Signature") = some sig)
    (hsigne : sig ≠ (""))
    (hts : getHeader headers ("X-Agent-Timestamp") = some ts)
    (htsne : ts ≠ ("")) :
    ((verifyRequest sha256 headers publicKey body tol now).error =
      some ("Invalid timestamp format") ↔ parseIntJS ts = none) ∧
    (parseIntJS ts = none →
      verifyRequest sha256 headers publicKey body tol now =
        { valid := false, error := some ("Invalid timestamp format") }) := by
  constructor
  · exact verifyRequest_timestamp_format sha256 headers publicKey body tol
      now sig ts hsig hsigne hts htsne
  · intro hp
    rw [verifyRequest, hsig, hts, jsTruthy_some _ hsigne,
      jsTruthy_some _ htsne]
    dsimp only
    rw [hp]

theorem claim_C7_witness :
    verifyRequest (fun _ => [])
      [(("X-Agent-Signature"), ("s")), (("X-Agent-Timestamp"), ("abc"))]
      [] none 300000 0 =
      { valid := false, error := some ("Invalid timestamp format") } :=
  (claim_C7 (fun _ => [])
    [(("X-Agent-Signature"), ("s")), (("X-Agent-Timestamp"), ("abc"))]
    [] none 300000 0 ("s") ("abc") rfl (by decide) rfl (by decide)).2 rfl

/-- C4 counterexample: a well-formed did:web DID with a successful
response whose body is not valid JSON resolves to internalError, not to
the invalidDidDocument error the claim states — the JSON parse throw
lands in the outer catch. -/
theorem claim_C4_counterexample :
    resolveDID ("did:web:example.com") (FetchOutcome.response 200 none none
      none) =
      { didDocument := none, error := some ResolutionError.internalError } ∧
    ResolutionError.internalError ≠ ResolutionError.invalidDidDocument :=
  ⟨rfl, by decide⟩

/-- C4 as amended: resolveDID fails with invalidDid when the format
invariant fails; with methodNotSupported for a well-formed DID without
the did:web: prefix; a transport failure and any other-status non-2xx
response yield internalError while a 404 yields notFound; a successful
response whose body is not valid JSON yields internalError (not
invalidDidDocument); a parsed body whose id differs from the requested
DID yields invalidDidDocument; and a matching body resolves to the
document with its header metadata. -/
theorem claim_C4 (did : String) :
    (∀ fetch, isValidDID did = false →
      resolveDID did fetch =
        { didDocument := none, error := some ResolutionError.invalidDid }) ∧
    (∀ fetch, isValidDID did = true →
      ¬ (("did:web:").toList.isPrefixOf did.toList) →
      resolveDID did fetch =
        { didDocument := none,
          error := some ResolutionError.methodNotSupported }) ∧
    (isValidDID did = true → (("did:web:").toList.isPrefixOf did.toList) →
      resolveDID did FetchOutcome.fetchError =
        { didDocument := none,
          error := some ResolutionError.internalError }) ∧
    (∀ status jsonBody ct lm, isValidDID did = true →
      (("did:web:").toList.isPrefixOf did.toList) →
      respOk status = false →
      resolveDID did (FetchOutcome.response status jsonBody ct lm) =
        { didDocument := none,
          error := some (if status = 404 then ResolutionError.notFound
            else ResolutionError.internalError) }) ∧
    (∀ status ct lm, isValidDID did = true →
      (("did:web:").toList.isPrefixOf did.toList) →
      respOk status = true →
      resolveDID did (FetchOutcome.response status none ct lm) =
        { didDocument := none,
          error := some ResolutionError.internalError }) ∧
    (∀ status doc ct lm, isValidDID did = true →
      (("did:web:").toList.isPrefixOf did.toList) →
      respOk status = true → doc.id ≠ did →
      resolveDID did (FetchOutcome.response status (some doc) ct lm) =
        { didDocument := none,
          error := some ResolutionError.invalidDidDocument }) ∧
    (∀ status doc ct lm, isValidDID did = true →
      (("did:web:").toList.isPrefixOf did.toList) →
      respOk status = true → doc.id = did →
      resolveDID did (FetchOutcome.response status (some doc) ct lm) =
        { didDocument := some doc, error := none, contentType := ct,
          updated := lm }) := by
  refine ⟨?_, ?_, ?_, ?_, ?_, ?_, ?_⟩
  · intro fetch hv
    rw [resolveDID.eq_def, if_pos (by simp [hv])]
  · intro fetch hv hw
    rw [resolveDID.eq_def, if_neg (by simp [hv]), if_pos (by simpa using hw)]
  · intro hv hw
    rw [resolveDID.eq_def, if_neg (by simp [hv]), if_neg (by simpa using hw)]
  · intro status jsonBody ct lm hv hw hro
    rw [resolveDID.eq_def, if_neg (by simp [hv]), if_neg (by simpa using hw)]
    dsimp only
    rw [if_pos (by simp [hro])]
  · intro status ct lm hv hw hro
    rw [resolveDID.eq_def, if_neg (by simp [hv]), if_neg (by simpa using hw)]
    dsimp only
    rw [if_neg (by simp [hro])]
  · intro status doc ct lm hv hw hro hid
    rw [resolveDID.eq_def, if_neg (by simp [hv]), if_neg (by simpa using hw)]
    dsimp only
    rw [if_neg (by simp [hro])]
    rw [if_pos hid]
  · intro status doc ct lm hv hw hro hid
    rw [resolveDID.eq_def, if_neg (by simp [hv]), if_neg (by simpa using hw)]
    dsimp only
    rw [if_neg (by simp [hro])]
    rw [if_neg (by simp [hid])]

theorem claim_C4_witness :
    resolveDID ("not a did") FetchOutcome.fetchError =
      { didDocument := none, error := some ResolutionError.invalidDid } ∧
    resolveDID ("did:key:abc") FetchOutcome.fetchError =
      { didDocument := none,
        error := some ResolutionError.methodNotSupported } ∧
    resolveDID ("did:web:example.com")
      (FetchOutcome.response 404 none none none) =
      { didDocument := none, error := some ResolutionError.notFound } ∧
    resolveDID ("did:web:example.com")
      (FetchOutcome.response 200 (some { id := ("did:web:example.com") })
        (some ("application/json")) none) =
      { didDocument := some { id := ("did:web:example.com") }, error := none,
        contentType := some ("application/json"), updated := none } := by
  refine ⟨?_, ?_, ?_, ?_⟩
  · exact (claim_C4 ("not a did")).1 FetchOutcome.fetchError (by decide)
  · exact (claim_C4 ("did:key:abc")).2.1 FetchOutcome.fetchError (by decide)
      (by decide)
  · have := (claim_C4 ("did:web:example.com")).2.2.2.1 404 none none none
      (by decide) (by decide) (by decide)
    simpa using this
  · exact (claim_C4 ("did:web:example.com")).2.2.2.2.2.2 200
      { id := ("did:web:example.com") } (some ("application/json")) none
      (by decide) (by decide) (by decide) rfl

/-- C2: recordCreditEvent on an existing identity with balance B and
signed amount a sets the stored balance to max(0, B + a), appends exactly
one ledger row whose amount is the raw signed delta and whose
balanceAfter is the new balance, and the stored balance is never
negative. -/
theorem claim_C2 (db : CreditDb) (did : String) (event : CreditEvent)
    (agent : AgentAccount)
    (hfind : db.agents.find? (fun a => a.did == did) = some agent) :
    ∃ entry db', recordCreditEvent db did event = .ok (entry, db') ∧
      entry.amount = event.amount ∧
      entry.balanceAfter = max 0 (agent.credits + event.amount) ∧
      getCredits db' did = .ok (max 0 (agent.credits + event.amount)) ∧
      db'.ledger = db.ledger ++
        [{ agentId := agent.id, eventType := event.type,
           amount := event.amount,
           balanceAfter := max 0 (agent.credits + event.amount),
           reason := event.reason, prUrl := jsTruthy event.prUrl }] ∧
      0 ≤ max 0 (agent.credits + event.amount) := by
  rw [recordCreditEvent, record_credit_event_atomic, hfind]
  dsimp only
  refine ⟨_, _, rfl, rfl, rfl, ?_, rfl, le_max_left 0 _⟩
  rw [getCredits]
  dsimp only
  rw [find?_map_update did event.amount db.agents agent hfind]

theorem claim_C2_witness :
    ∃ entry db',
      recordCreditEvent
        { agents := [{ id := ("a1"), did := ("d"), credits := 10 }],
          ledger := [] } ("d")
        { type := CreditEventType.manual_adjustment, amount := -50,
          reason := ("r"), prUrl := none } = .ok (entry, db') ∧
      entry.amount = -50 ∧ entry.balanceAfter = 0 ∧
      getCredits db' ("d") = .ok 0 := by
  obtain ⟨entry, db', h1, h2, h3, h4, h5, h6⟩ :=
    claim_C2
      { agents := [{ id := ("a1"), did := ("d"), credits := 10 }],
        ledger := [] } ("d")
      { type := CreditEventType.manual_adjustment, amount := -50,
        reason := ("r"), prUrl := none }
      { id := ("a1"), did := ("d"), credits := 10 } rfl
  refine ⟨entry, db', h1, h2, ?_, ?_⟩
  · rw [h3]; rfl
  · rw [h4]; rfl

/-- C1: for an active agent, a signature whose hash is already cached is
reported as a replay failure — verification fails with the replay error
whatever the cryptographic outcome would have been, since the cache check
precedes the cryptographic check; any cache hit makes the overall result
invalid whatever the agent state; and after a verification that reported
valid, a second verification of the identical signature string never
reports valid, because the success path inserted the hash under the
signature_cache primary key. -/
theorem claim_C1 (sha256hex : String → String)
    (sha256 : List Nat → List Nat) (db : RegistryDb)
    (did signature message timestamp : String) (now : Int)
    (message2 timestamp2 : String) (now2 : Int) :
    (∀ agent, db.agents.find? (fun a => a.did == did) = some agent →
      agent.status = AgentStatus.active →
      (db.signatureCache.find?
        (fun row => row.signatureHash == sha256hex signature)).isSome →
      verifyAgentSignature sha256hex sha256 db did signature message
        timestamp now =
        ({ valid := false, agent := some agent,
           error := some
             ("Signature already used (replay attack detected)") },
         db, [.queryAgent, .queryCache])) ∧
    ((db.signatureCache.find?
        (fun row => row.signatureHash == sha256hex signature)).isSome →
      (verifyAgentSignature sha256hex sha256 db did signature message
        timestamp now).1.valid = false) ∧
    ((verifyAgentSignature sha256hex sha256 db did signature message
        timestamp now).1.valid = true →
      (verifyAgentSignature sha256hex sha256
        (verifyAgentSignature sha256hex sha256 db did signature message
          timestamp now).2.1
        did signature message2 timestamp2 now2).1.valid = false) := by
  refine ⟨?_, ?_, ?_⟩
  · intro agent hfind hactive hcache
    exact vas_replay sha256hex sha256 db did signature message timestamp now
      agent hfind hactive hcache
  · intro hcache
    rcases hfind : db.agents.find? (fun a => a.did == did) with _ | agent
    · rw [vas_nofind sha256hex sha256 db did signature message timestamp now
        hfind]
    · by_cases hactive : agent.status = AgentStatus.active
      · rw [vas_replay sha256hex sha256 db did signature message timestamp
          now agent hfind hactive hcache]
      · rw [vas_inactive sha256hex sha256 db did signature message timestamp
          now agent hfind hactive]
  · intro hvalid
    exact vas_never_valid_twice sha256hex sha256 db did signature message
      timestamp now message2 timestamp2 now2 hvalid

theorem claim_C1_witness :
    (verifyAgentSignature (fun s => s) (fun _ => [])
      { agents :=
          [{ id := ("a"), did := ("d"), publicKey := ("ff"),
             status := AgentStatus.active }],
        signatureCache :=
          [{ signatureHash := ("sg"), agentDid := ("d"),
             timestamp := ("0") }] }
      ("d") ("sg") ("m") ("0") 0 =
      ({ valid := false,
         agent := some
           { id := ("a"), did := ("d"), publicKey := ("ff"),
             status := AgentStatus.active },
         error := some ("Signature already used (replay attack detected)") },
       { agents :=
           [{ id := ("a"), did := ("d"), publicKey := ("ff"),
              status := AgentStatus.active }],
         signatureCache :=
           [{ signatureHash := ("sg"), agentDid := ("d"),
              timestamp := ("0") }] },
       [.queryAgent, .queryCache])) ∧
    (verifyAgentSignature (fun s => s) (fun _ => [])
      (verifyAgentSignature (fun s => s) (fun _ => [])
        { agents :=
            [{ id := ("a"), did := ("d"), publicKey := ("00"),
               status := AgentStatus.active }],
          signatureCache := [] }
        ("d") (base64urlEncode (utf8Encode ("POST\n/\n0\n") ++ [0]))
        ("m") ("0") 0).2.1
      ("d") (base64urlEncode (utf8Encode ("POST\n/\n0\n") ++ [0]))
      ("m") ("0") 0).1.valid = false := by
  constructor
  · exact (claim_C1 (fun s => s) (fun _ => [])
      { agents :=
          [{ id := ("a"), did := ("d"), publicKey := ("ff"),
             status := AgentStatus.active }],
        signatureCache :=
          [{ signatureHash := ("sg"), agentDid := ("d"),
             timestamp := ("0") }] }
      ("d") ("sg") ("m") ("0") 0 ("m") ("0") 0).1
      { id := ("a"), did := ("d"), publicKey := ("ff"),
        status := AgentStatus.active } rfl rfl rfl
  · exact (claim_C1 (fun s => s) (fun _ => [])
      { agents :=
          [{ id := ("a"), did := ("d"), publicKey := ("00"),
             status := AgentStatus.active }],
        signatureCache := [] }
      ("d") (base64urlEncode (utf8Encode ("POST\n/\n0\n") ++ [0]))
      ("m") ("0") 0 ("m") ("0") 0).2.2 (by decide)

/-- C10: for an agent whose status is not active, verifyAgentSignature
reports invalid with the Agent is status error, touches neither the
replay cache nor the cryptographic verifier (its action trace holds only
the agent lookup), and leaves the store unchanged. -/
theorem claim_C10 (sha256hex : String → String)
    (sha256 : List Nat → List Nat) (db : RegistryDb)
    (did signature message timestamp : String) (now : Int)
    (agent : RegistryAgent)
    (hfind : db.agents.find? (fun a => a.did == did) = some agent)
    (hstatus : agent.status ≠ AgentStatus.active) :
    (verifyAgentSignature sha256hex sha256 db did signature message
      timestamp now).1.valid = false ∧
    (verifyAgentSignature sha256hex sha256 db did signature message
      timestamp now).1.error =
      some (("Agent is ") ++ agent.status.toStr) ∧
    RegistryAction.queryCache ∉
      (verifyAgentSignature sha256hex sha256 db did signature message
        timestamp now).2.2 ∧
    RegistryAction.cryptoVerify ∉
      (verifyAgentSignature sha256hex sha256 db did signature message
        timestamp now).2.2 ∧
    (verifyAgentSignature sha256hex sha256 db did signature message
      timestamp now).2.1 = db := by
  rw [vas_inactive sha256hex sha256 db did signature message timestamp now
    agent hfind hstatus]
  refine ⟨rfl, rfl, ?_, ?_, rfl⟩
  · show RegistryAction.queryCache ∉ [RegistryAction.queryAgent]
    decide
  · show RegistryAction.cryptoVerify ∉ [RegistryAction.queryAgent]
    decide

theorem claim_C10_witness :
    (verifyAgentSignature (fun s => s) (fun _ => [])
      { agents :=
          [{ id := ("a"), did := ("d"), publicKey := ("ff"),
             status := AgentStatus.suspended }],
        signatureCache := [] }
      ("d") ("sg") ("m") ("0") 0).1.valid = false ∧
    (verifyAgentSignature (fun s => s) (fun _ => [])
      { agents :=
          [{ id := ("a"), did := ("d"), publicKey := ("ff"),
             status := AgentStatus.suspended }],
        signatureCache := [] }
      ("d") ("sg") ("m") ("0") 0).1.error = some ("Agent is suspended") := by
  have h := claim_C10 (fun s => s) (fun _ => [])
    { agents :=
        [{ id := ("a"), did := ("d"), publicKey := ("ff"),
           status := AgentStatus.suspended }],
      signatureCache := [] }
    ("d") ("sg") ("m") ("0") 0
    { id := ("a"), did := ("d"), publicKey := ("ff"),
      status := AgentStatus.suspended } rfl (by decide)
  exact ⟨h.1, h.2.1⟩

/-- C9: under the row-lock interleaving semantics of
record_credit_event_atomic, any execution in which all N concurrent
+1 transactions against one identity starting at balance 0 have
committed ends with balance exactly N and exactly N ledger rows — no
update is lost, whatever the interleaving. -/
theorem claim_C9 (n : Nat) (s : LedgerSysState)
    (h : LedgerReachable n s)
    (hdone : ∀ ph ∈ s.phases, ph = TxPhase.committed) :
    s.credits = n ∧ s.ledgerCount = n := by
  obtain ⟨hlen, hcred, hledg⟩ := ledgerInv_reachable n s h
  have hc1 : s.phases.countP notReady = s.phases.length := by
    rw [List.countP_eq_length]
    intro a ha
    rw [hdone a ha]
    rfl
  have hc2 : s.phases.countP isCommitted = s.phases.length := by
    rw [List.countP_eq_length]
    intro a ha
    rw [hdone a ha]
    rfl
  constructor
  · rw [hcred, hc1, hlen]
  · rw [hledg, hc2, hlen]

theorem claim_C9_witness :
    ({ credits := 2, ledgerCount := 2,
       phases := [TxPhase.committed, TxPhase.committed],
       lockHolder := none } : LedgerSysState).credits = 2 ∧
    ({ credits := 2, ledgerCount := 2,
       phases := [TxPhase.committed, TxPhase.committed],
       lockHolder := none } : LedgerSysState).ledgerCount = 2 := by
  have h1 : CreditStep (initLedgerState 2)
      { credits := 1, ledgerCount := 0,
        phases := [TxPhase.locked, TxPhase.ready], lockHolder := some 0 } :=
    CreditStep.update (initLedgerState 2) 0 rfl rfl
  have h2 : CreditStep
      { credits := 1, ledgerCount := 0,
        phases := [TxPhase.locked, TxPhase.ready], lockHolder := some 0 }
      { credits := 1, ledgerCount := 1,
        phases := [TxPhase.committed, TxPhase.ready], lockHolder := none } :=
    CreditStep.commit _ 0 rfl rfl
  have h3 : CreditStep
      { credits := 1, ledgerCount := 1,
        phases := [TxPhase.committed, TxPhase.ready], lockHolder := none }
      { credits := 2, ledgerCount := 1,
        phases := [TxPhase.committed, TxPhase.locked],
        lockHolder := some 1 } :=
    CreditStep.update _ 1 rfl rfl
  have h4 : CreditStep
      { credits := 2, ledgerCount := 1,
        phases := [TxPhase.committed, TxPhase.locked], lockHolder := some 1 }
      { credits := 2, ledgerCount := 2,
        phases := [TxPhase.committed, TxPhase.committed],
        lockHolder := none } :=
    CreditStep.commit _ 1 rfl rfl
  have hreach : LedgerReachable 2
      { credits := 2, ledgerCount := 2,
        phases := [TxPhase.committed, TxPhase.committed],
        lockHolder := none } :=
    Relation.ReflTransGen.tail
      (Relation.ReflTransGen.tail
        (Relation.ReflTransGen.tail
          (Relation.ReflTransGen.tail Relation.ReflTransGen.refl h1) h2) h3)
      h4
  exact claim_C9 2 _ hreach (by decide)
